import Mathlib

/-!
Verification of the AEGeAn locus-clustering and comparative-reporting core.

The definitions below are a shallow embedding of the C sources:
  * `src/core/AgnLocusIndex.c`  — locus clustering (single source and pairwise),
  * `src/core/AgnLocusStream.c` — stream-based single-source clustering,
  * `src/core/AgnCompareTextReportVisitor.c` — per-pair nucleotide report,
  * `src/ParsEval/PeReports.c`  — per-locus and run-wide reports,
  * `inc/core/AgnCliquePair.h`  — classification codes and pair predicates.

Machine integers (`unsigned long` coordinates, counters) are modelled with `Nat`;
the coordinates in play never approach 2^64 and the C code performs no wrapping
arithmetic on them.  Pointer-keyed hash maps (`GT_HASH_DIRECT` visited sets) are
modelled by lists of feature identifiers; distinct feature objects are assumed to
carry distinct identifiers where a theorem needs it (stated as a `Nodup`
hypothesis).  Fallible external collaborators (the genometools feature index) are
modelled with explicit error flags, and functions that can return `NULL` return
`Option` values.  `double` values that only ever flow through exact comparisons
are modelled with `ℚ`, with a dedicated constructor for the non-finite results of
a division by zero.
-/

namespace AEGeAn

/-- Coordinate range of a genomic feature (genometools `GtRange`); closed
interval `[start, stop]`. -/
@[ext]
structure GtRange where
  start : Nat
  stop : Nat
deriving DecidableEq, Repr

/-- Embeds `gt_range_overlap`: two closed ranges overlap iff each starts no
later than the other ends. -/
def gt_range_overlap (a b : GtRange) : Bool :=
  decide (a.start ≤ b.stop) && decide (b.start ≤ a.stop)

/-- Embeds `gt_range_join`: the hull of two ranges. -/
def gt_range_join (a b : GtRange) : GtRange :=
  ⟨min a.start b.start, max a.stop b.stop⟩

/-- A genometools feature node as the clusterer sees it: an identity (standing
for the node's address, which is what the `GT_HASH_DIRECT` visited maps key on),
a coordinate range, and whether `gt_feature_node_has_type(fn, "gene")` holds. -/
structure GtFeatureNode where
  fid : Nat
  range : GtRange
  isgene : Bool
deriving DecidableEq, Repr

/-- A gene locus (`AgnLocus`): the clusterer only uses its coordinate range and
its gene set; all claims here are per-sequence, so the seqid is left implicit. -/
structure AgnLocus where
  range : GtRange
  genes : List GtFeatureNode
deriving DecidableEq, Repr

/-- Embeds `agn_locus_new`: a locus with no genes yet. -/
def agn_locus_new : AgnLocus := ⟨⟨0, 0⟩, []⟩

/-- Modelled from the spec: `agn_locus_add` (AgnLocus.c is not among the provided
sources; per the spec a locus's coordinate range is "the union of all contained
features' ranges").  Adding a gene appends it to the locus and extends the
locus range to the hull of the member ranges. -/
def agn_locus_add (locus : AgnLocus) (fn : GtFeatureNode) : AgnLocus :=
  { range := if locus.genes.isEmpty then fn.range else gt_range_join locus.range fn.range
    genes := locus.genes ++ [fn] }

/-- The external genometools feature index for one sequence, restricted to the
interface the clusterer consumes: the ordered feature list for the sequence,
plus flags saying whether the collaborator reports an error on range queries
(`qerr`) or on the initial features-for-seqid query (`serr`). -/
structure GtFeatureIndex where
  features : List GtFeatureNode
  qerr : Bool
  serr : Bool
deriving DecidableEq, Repr

/-- Result of one overlap-query-and-claim call: the updated visited set, the
updated locus, the returned gene count, and the logger's error count. -/
structure OverlapRes where
  visited : List Nat
  locus : AgnLocus
  count : Nat
  logger : Nat
deriving DecidableEq, Repr

/-- Embeds the `while(gt_array_size(overlapping_features) > 0)` claim loop of
`agn_locus_index_test_overlap`: pop each fetched feature; if it is a gene and
not yet in the visited map, mark it visited, add it to the locus and count it. -/
def claimOverlapGenes : List GtFeatureNode → List Nat → AgnLocus → Nat → Nat → OverlapRes
  | [], visited, locus, cnt, lg => ⟨visited, locus, cnt, lg⟩
  | fn :: rest, visited, locus, cnt, lg =>
    if fn.isgene && !(visited.contains fn.fid) then
      claimOverlapGenes rest (fn.fid :: visited) (agn_locus_add locus fn) (cnt + 1) lg
    else
      claimOverlapGenes rest visited locus cnt lg

/-- Embeds `agn_locus_index_test_overlap` (AgnLocusIndex.c): query the index for
all features overlapping the locus's current range (popping yields them in
reverse order) and claim every unvisited gene among them.  On a query error the
function logs the error and returns 0 with the locus untouched. -/
def agn_locus_index_test_overlap (idx : GtFeatureIndex) (visited : List Nat)
    (locus : AgnLocus) (lg : Nat) : OverlapRes :=
  if idx.qerr then
    ⟨visited, locus, 0, lg + 1⟩
  else
    claimOverlapGenes
      ((idx.features.filter fun fn => gt_range_overlap fn.range locus.range).reverse)
      visited locus 0 lg

/-- Full behavioural description of the claim loop: there is a list `new` of
newly claimed genes, appended to the locus, whose identifiers are exactly the
identifiers added to the visited set; the returned count grows by their number;
every claimed gene comes from the fetched list, is a gene and was unvisited;
every gene in the fetched list ends up visited; and a run that claims nothing
changes nothing. -/
theorem claimOverlapGenes_spec (l : List GtFeatureNode) :
    ∀ (visited : List Nat) (locus : AgnLocus) (cnt lg : Nat),
    ∃ new : List GtFeatureNode,
      (claimOverlapGenes l visited locus cnt lg).locus.genes = locus.genes ++ new ∧
      (∀ x, x ∈ (claimOverlapGenes l visited locus cnt lg).visited ↔
        x ∈ visited ∨ x ∈ new.map GtFeatureNode.fid) ∧
      (claimOverlapGenes l visited locus cnt lg).count = cnt + new.length ∧
      (∀ fn ∈ new, fn ∈ l ∧ fn.isgene = true ∧ fn.fid ∉ visited) ∧
      (∀ fn ∈ l, fn.isgene = true →
        fn.fid ∈ (claimOverlapGenes l visited locus cnt lg).visited) ∧
      (new = [] → claimOverlapGenes l visited locus cnt lg = ⟨visited, locus, cnt, lg⟩) ∧
      (claimOverlapGenes l visited locus cnt lg).logger = lg := by
  induction l with
  | nil =>
    intro visited locus cnt lg
    exact ⟨[], by simp [claimOverlapGenes]⟩
  | cons fn rest ih =>
    intro visited locus cnt lg
    by_cases hcl : fn.isgene = true ∧ fn.fid ∉ visited
    · obtain ⟨new', h1, h2, h3, h4, h5, _h6, h7⟩ :=
        ih (fn.fid :: visited) (agn_locus_add locus fn) (cnt + 1) lg
      have hstep : claimOverlapGenes (fn :: rest) visited locus cnt lg =
          claimOverlapGenes rest (fn.fid :: visited) (agn_locus_add locus fn) (cnt + 1) lg := by
        simp [claimOverlapGenes, hcl.1, hcl.2]
      refine ⟨fn :: new', ?_, ?_, ?_, ?_, ?_, ?_, ?_⟩
      · rw [hstep, h1]; simp [agn_locus_add]
      · intro x
        rw [hstep, h2 x]
        simp only [List.map_cons, List.mem_cons]
        tauto
      · rw [hstep, h3]; simp; omega
      · intro g hg
        rcases List.mem_cons.mp hg with rfl | hg'
        · exact ⟨List.mem_cons_self _ _, hcl.1, hcl.2⟩
        · obtain ⟨ha, hb, hc⟩ := h4 g hg'
          exact ⟨List.mem_cons_of_mem _ ha, hb, fun hx => hc (List.mem_cons_of_mem _ hx)⟩
      · intro g hg hgene
        rcases List.mem_cons.mp hg with rfl | hg'
        · rw [hstep, h2]; left; exact List.mem_cons_self _ _
        · rw [hstep]; exact h5 g hg' hgene
      · intro hne; cases hne
      · rw [hstep]; exact h7
    · obtain ⟨new', h1, h2, h3, h4, h5, h6, h7⟩ := ih visited locus cnt lg
      have hstep : claimOverlapGenes (fn :: rest) visited locus cnt lg =
          claimOverlapGenes rest visited locus cnt lg := by
        rcases not_and_or.mp hcl with hg | hv
        · have hg' : fn.isgene = false := by
            cases h : fn.isgene
            · rfl
            · exact absurd h hg
          simp [claimOverlapGenes, hg']
        · have hv' : fn.fid ∈ visited := not_not.mp hv
          simp [claimOverlapGenes, hv']
      refine ⟨new', by rw [hstep]; exact h1, by rw [hstep]; exact h2,
        by rw [hstep]; exact h3, ?_, ?_, by rw [hstep]; exact h6, by rw [hstep]; exact h7⟩
      · intro g hg
        obtain ⟨ha, hb, hc⟩ := h4 g hg
        exact ⟨List.mem_cons_of_mem _ ha, hb, hc⟩
      · intro g hg hgene
        rcases List.mem_cons.mp hg with rfl | hg'
        · have hv : g.fid ∈ visited := by
            rcases not_and_or.mp hcl with hg0 | hv0
            · exact absurd hgene (by simpa using hg0)
            · exact not_not.mp hv0
          rw [hstep, h2]; exact Or.inl hv
        · rw [hstep]; exact h5 g hg' hgene

/-- Number of feature identifiers of `fs` not yet in the visited set; the
termination measure of the fixed-point expansion loops. -/
def unvisitedGeneCount (fs : List GtFeatureNode) (visited : List Nat) : Nat :=
  ((fs.map GtFeatureNode.fid).toFinset \ visited.toFinset).card

/-- A step that keeps the visited set (as a set) but newly visits some
identifier of `fs` strictly shrinks the unvisited count. -/
theorem unvisitedGeneCount_lt (fs : List GtFeatureNode) (visited v : List Nat)
    (hmono : ∀ y ∈ visited, y ∈ v) (x : Nat) (hx1 : x ∈ fs.map GtFeatureNode.fid)
    (hx2 : x ∉ visited) (hx3 : x ∈ v) :
    unvisitedGeneCount fs v < unvisitedGeneCount fs visited := by
  apply Finset.card_lt_card
  constructor
  · intro a ha
    simp only [Finset.mem_sdiff, List.mem_toFinset] at ha ⊢
    exact ⟨ha.1, fun hav => ha.2 (hmono a hav)⟩
  · intro hsub
    have hxmem : x ∈ (fs.map GtFeatureNode.fid).toFinset \ visited.toFinset := by
      simp only [Finset.mem_sdiff, List.mem_toFinset]
      exact ⟨hx1, hx2⟩
    have := hsub hxmem
    simp only [Finset.mem_sdiff, List.mem_toFinset] at this
    exact this.2 hx3

/-- If `agn_locus_index_test_overlap` reports a positive count, the unvisited
count strictly decreases. -/
theorem agn_locus_index_test_overlap_progress (idx : GtFeatureIndex) (visited : List Nat)
    (locus : AgnLocus) (lg : Nat)
    (h : 0 < (agn_locus_index_test_overlap idx visited locus lg).count) :
    unvisitedGeneCount idx.features (agn_locus_index_test_overlap idx visited locus lg).visited <
      unvisitedGeneCount idx.features visited := by
  by_cases hq : idx.qerr
  · simp [agn_locus_index_test_overlap, hq] at h
  · rw [agn_locus_index_test_overlap, if_neg hq] at h ⊢
    obtain ⟨new, _h1, h2, h3, h4, _h5, _h6, _h7⟩ := claimOverlapGenes_spec
      ((idx.features.filter fun fn => gt_range_overlap fn.range locus.range).reverse)
      visited locus 0 lg
    rw [h3] at h
    have hne : new ≠ [] := by
      intro h0; rw [h0] at h; simp at h
    obtain ⟨fn, hfn⟩ := List.exists_mem_of_ne_nil new hne
    obtain ⟨hfl, _hfg, hfv⟩ := h4 fn hfn
    have hffs : fn ∈ idx.features :=
      List.mem_of_mem_filter (List.mem_reverse.mp hfl)
    refine unvisitedGeneCount_lt idx.features visited _ ?_ fn.fid ?_ hfv ?_
    · intro y hy; exact (h2 y).mpr (Or.inl hy)
    · exact List.mem_map_of_mem GtFeatureNode.fid hffs
    · exact (h2 fn.fid).mpr (Or.inr (List.mem_map_of_mem GtFeatureNode.fid hfn))

/-- Embeds the `do { ... } while(new_gene_count > 0)` fixed-point loop of
`agn_locus_index_parse`: repeat the overlap-query-and-claim step until an
iteration claims zero new genes. -/
def expandAgnLocus (idx : GtFeatureIndex) (visited : List Nat) (locus : AgnLocus)
    (lg : Nat) : OverlapRes :=
  if h : 0 < (agn_locus_index_test_overlap idx visited locus lg).count then
    expandAgnLocus idx (agn_locus_index_test_overlap idx visited locus lg).visited
      (agn_locus_index_test_overlap idx visited locus lg).locus
      (agn_locus_index_test_overlap idx visited locus lg).logger
  else
    agn_locus_index_test_overlap idx visited locus lg
termination_by unvisitedGeneCount idx.features visited
decreasing_by
  exact agn_locus_index_test_overlap_progress idx visited locus lg h

/-- Embeds the feature-iteration loop of `agn_locus_index_parse`: every
unvisited gene seeds a fresh locus (the seed itself is not pre-marked visited —
the first expansion claims it) which is then expanded to its fixed point.
Returns the sealed loci in seed order together with the final visited set and
logger. -/
def agn_locus_index_parse_go (idx : GtFeatureIndex) :
    List GtFeatureNode → List Nat → Nat → List AgnLocus × List Nat × Nat
  | [], visited, lg => ([], visited, lg)
  | fn :: rest, visited, lg =>
    if fn.isgene = true ∧ fn.fid ∉ visited then
      let r := expandAgnLocus idx visited (agn_locus_add agn_locus_new fn) lg
      let t := agn_locus_index_parse_go idx rest r.visited r.logger
      (r.locus :: t.1, t.2)
    else
      agn_locus_index_parse_go idx rest visited lg

/-- Embeds `agn_locus_index_parse` (AgnLocusIndex.c) for one sequence: fetch the
sequence's features (on an error, log it and return `NULL`), then cluster them
into loci by transitive-overlap fixed-point expansion. -/
def agn_locus_index_parse (idx : GtFeatureIndex) (lg : Nat) :
    Option (List AgnLocus) × Nat :=
  if idx.serr then
    (none, lg + 1)
  else
    (some (agn_locus_index_parse_go idx idx.features [] lg).1,
      (agn_locus_index_parse_go idx idx.features [] lg).2.2)

/-- All feature ranges are well-formed (`start ≤ end`), which genometools
enforces for every `GtRange` it hands out. -/
def validFeatures (fs : List GtFeatureNode) : Prop :=
  ∀ f ∈ fs, f.range.start ≤ f.range.stop

/-- One link of the chain in the spec's clustering contract: two gene features
of the input whose coordinate ranges overlap. -/
def overlapEdge (fs : List GtFeatureNode) (a b : GtFeatureNode) : Prop :=
  a ∈ fs ∧ b ∈ fs ∧ a.isgene = true ∧ b.isgene = true ∧
    gt_range_overlap a.range b.range = true

/-- Two gene features are connected by a chain of pairwise-overlapping
coordinate ranges (the spec's criterion for landing in the same locus). -/
def overlapConn (fs : List GtFeatureNode) : GtFeatureNode → GtFeatureNode → Prop :=
  Relation.ReflTransGen (overlapEdge fs)

theorem gt_range_overlap_iff (a b : GtRange) :
    gt_range_overlap a b = true ↔ a.start ≤ b.stop ∧ b.start ≤ a.stop := by
  simp [gt_range_overlap]

theorem overlapEdge_symm (fs : List GtFeatureNode) : Symmetric (overlapEdge fs) := by
  intro a b ⟨h1, h2, h3, h4, h5⟩
  refine ⟨h2, h1, h4, h3, ?_⟩
  rw [gt_range_overlap_iff] at h5 ⊢
  exact h5.symm

theorem overlapConn_symm (fs : List GtFeatureNode) : Symmetric (overlapConn fs) :=
  Relation.ReflTransGen.symmetric (overlapEdge_symm fs)

/-- Invariant maintained for every locus the clusterer builds: it is non-empty;
its members are gene features of the input; its range is the hull of the member
ranges, with every position of the hull covered by some member (a chain-connected
union of closed intervals has no gaps); and its members are pairwise connected
by overlap chains. -/
structure LocusInv (fs : List GtFeatureNode) (L : AgnLocus) : Prop where
  ne : L.genes ≠ []
  mem : ∀ g ∈ L.genes, g ∈ fs ∧ g.isgene = true
  hull : ∀ g ∈ L.genes, L.range.start ≤ g.range.start ∧ g.range.stop ≤ L.range.stop
  cov : ∀ x : Nat, L.range.start ≤ x → x ≤ L.range.stop →
    ∃ g ∈ L.genes, g.range.start ≤ x ∧ x ≤ g.range.stop
  conn : ∀ g ∈ L.genes, ∀ h ∈ L.genes, overlapConn fs g h

theorem LocusInv.range_valid {fs : List GtFeatureNode} {L : AgnLocus}
    (hv : validFeatures fs) (hL : LocusInv fs L) :
    L.range.start ≤ L.range.stop := by
  obtain ⟨g, hg⟩ := List.exists_mem_of_ne_nil _ hL.ne
  have h1 := hL.hull g hg
  have h2 := hv g (hL.mem g hg).1
  omega

/-- Any feature whose range overlaps the hull of an invariant-satisfying locus
overlaps the range of one of its members. -/
theorem locus_absorb {fs : List GtFeatureNode} {L : AgnLocus}
    (hv : validFeatures fs) (hL : LocusInv fs L) (g : GtFeatureNode)
    (hgv : g.range.start ≤ g.range.stop)
    (hov : gt_range_overlap g.range L.range = true) :
    ∃ m ∈ L.genes, gt_range_overlap g.range m.range = true := by
  rw [gt_range_overlap_iff] at hov
  have hrv := hL.range_valid hv
  obtain ⟨m, hm, hmx⟩ := hL.cov (max L.range.start g.range.start) (by omega) (by omega)
  refine ⟨m, hm, ?_⟩
  rw [gt_range_overlap_iff]
  omega

/-- Adding a gene feature whose range overlaps the current hull preserves the
locus invariant. -/
theorem locusInv_add {fs : List GtFeatureNode} {L : AgnLocus}
    (hv : validFeatures fs) (hL : LocusInv fs L) (g : GtFeatureNode)
    (hgfs : g ∈ fs) (hgg : g.isgene = true)
    (hov : gt_range_overlap g.range L.range = true) :
    LocusInv fs (agn_locus_add L g) := by
  have hner : L.genes.isEmpty = false := by
    cases h : L.genes
    · exact absurd h hL.ne
    · rfl
  have hgv : g.range.start ≤ g.range.stop := hv g hgfs
  have hrange : (agn_locus_add L g).range = gt_range_join L.range g.range := by
    simp [agn_locus_add, hner]
  have hgenes : (agn_locus_add L g).genes = L.genes ++ [g] := rfl
  have hovs := (gt_range_overlap_iff _ _).mp hov
  obtain ⟨m0, hm0, hm0ov⟩ := locus_absorb hv hL g hgv hov
  refine ⟨?_, ?_, ?_, ?_, ?_⟩
  · rw [hgenes]; simp
  · rw [hgenes]
    intro a ha
    rcases List.mem_append.mp ha with ha' | ha'
    · exact hL.mem a ha'
    · rw [List.mem_singleton.mp ha']
      exact ⟨hgfs, hgg⟩
  · rw [hgenes, hrange]
    intro a ha
    rcases List.mem_append.mp ha with ha' | ha'
    · have := hL.hull a ha'
      simp only [gt_range_join]
      omega
    · rw [List.mem_singleton.mp ha']
      simp only [gt_range_join]
      omega
  · rw [hgenes, hrange]
    intro x hx1 hx2
    simp only [gt_range_join] at hx1 hx2
    by_cases hin : L.range.start ≤ x ∧ x ≤ L.range.stop
    · obtain ⟨m, hm, hmx⟩ := hL.cov x hin.1 hin.2
      exact ⟨m, List.mem_append.mpr (Or.inl hm), hmx⟩
    · refine ⟨g, List.mem_append.mpr (Or.inr (List.mem_singleton.mpr rfl)), ?_⟩
      omega
  · rw [hgenes]
    have hedge : overlapEdge fs g m0 :=
      ⟨hgfs, (hL.mem m0 hm0).1, hgg, (hL.mem m0 hm0).2, hm0ov⟩
    have hconn_g : ∀ b ∈ L.genes, overlapConn fs g b := by
      intro b hb
      exact Relation.ReflTransGen.trans (Relation.ReflTransGen.single hedge)
        (hL.conn m0 hm0 b hb)
    intro a ha b hb
    rcases List.mem_append.mp ha with ha' | ha' <;>
      rcases List.mem_append.mp hb with hb' | hb'
    · exact hL.conn a ha' b hb'
    · rw [List.mem_singleton.mp hb']
      exact overlapConn_symm fs (hconn_g a ha')
    · rw [List.mem_singleton.mp ha']
      exact hconn_g b hb'
    · rw [List.mem_singleton.mp ha', List.mem_singleton.mp hb']
      exact Relation.ReflTransGen.refl

/-- The claim loop preserves the locus invariant: every processed feature was
fetched as overlapping the locus range `R0` current at query time, which the
growing hull keeps containing. -/
theorem claimOverlapGenes_inv {fs : List GtFeatureNode} (hv : validFeatures fs)
    (R0 : GtRange) :
    ∀ (l : List GtFeatureNode) (visited : List Nat) (locus : AgnLocus) (cnt lg : Nat),
    (∀ fn ∈ l, fn ∈ fs ∧ gt_range_overlap fn.range R0 = true) →
    locus.range.start ≤ R0.start → R0.stop ≤ locus.range.stop →
    LocusInv fs locus →
    LocusInv fs (claimOverlapGenes l visited locus cnt lg).locus ∧
    (claimOverlapGenes l visited locus cnt lg).locus.range.start ≤ locus.range.start ∧
    locus.range.stop ≤ (claimOverlapGenes l visited locus cnt lg).locus.range.stop := by
  intro l
  induction l with
  | nil =>
    intro visited locus cnt lg _ _ _ hinv
    exact ⟨hinv, le_refl _, le_refl _⟩
  | cons fn rest ih =>
    intro visited locus cnt lg hl hs1 hs2 hinv
    by_cases hcl : fn.isgene = true ∧ fn.fid ∉ visited
    · have hstep : claimOverlapGenes (fn :: rest) visited locus cnt lg =
          claimOverlapGenes rest (fn.fid :: visited) (agn_locus_add locus fn) (cnt + 1) lg := by
        simp [claimOverlapGenes, hcl.1, hcl.2]
      obtain ⟨hfs, hfov⟩ := hl fn (List.mem_cons_self _ _)
      have hov : gt_range_overlap fn.range locus.range = true := by
        rw [gt_range_overlap_iff] at hfov ⊢
        omega
      have hinv' := locusInv_add hv hinv fn hfs hcl.1 hov
      have hner : locus.genes.isEmpty = false := by
        cases h : locus.genes
        · exact absurd h hinv.ne
        · rfl
      have hradd : (agn_locus_add locus fn).range = gt_range_join locus.range fn.range := by
        simp [agn_locus_add, hner]
      rw [hstep]
      obtain ⟨ha, hb, hc⟩ := ih (fn.fid :: visited) (agn_locus_add locus fn) (cnt + 1) lg
        (fun g hg => hl g (List.mem_cons_of_mem _ hg))
        (by rw [hradd]; simp only [gt_range_join]; omega)
        (by rw [hradd]; simp only [gt_range_join]; omega) hinv'
      have hje : (agn_locus_add locus fn).range.start ≤ locus.range.start ∧
          locus.range.stop ≤ (agn_locus_add locus fn).range.stop := by
        rw [hradd]; simp only [gt_range_join]; omega
      exact ⟨ha, le_trans hb hje.1, le_trans hje.2 hc⟩
    · have hstep : claimOverlapGenes (fn :: rest) visited locus cnt lg =
          claimOverlapGenes rest visited locus cnt lg := by
        rcases not_and_or.mp hcl with hg | hvv
        · have hg' : fn.isgene = false := by
            cases h : fn.isgene
            · rfl
            · exact absurd h hg
          simp [claimOverlapGenes, hg']
        · have hv' : fn.fid ∈ visited := not_not.mp hvv
          simp [claimOverlapGenes, hv']
      rw [hstep]
      exact ih visited locus cnt lg (fun g hg => hl g (List.mem_cons_of_mem _ hg)) hs1 hs2 hinv

/-- Unfolds the error-free branch of `agn_locus_index_test_overlap`. -/
theorem agn_locus_index_test_overlap_eq {idx : GtFeatureIndex} (hq : idx.qerr = false)
    (visited : List Nat) (locus : AgnLocus) (lg : Nat) :
    agn_locus_index_test_overlap idx visited locus lg =
      claimOverlapGenes
        ((idx.features.filter fun fn => gt_range_overlap fn.range locus.range).reverse)
        visited locus 0 lg := by
  simp [agn_locus_index_test_overlap, hq]

/-- Full behavioural description of the fixed-point expansion: it extends the
locus by a list of newly claimed genes (whose ids are exactly the ids newly
visited, each previously unclaimed), preserves the locus invariant, and — the
fixed-point property — on return every gene feature overlapping the final locus
range is visited. -/
theorem expandAgnLocus_spec (idx : GtFeatureIndex) (hq : idx.qerr = false)
    (hv : validFeatures idx.features) :
    ∀ (visited : List Nat) (locus : AgnLocus) (lg : Nat), LocusInv idx.features locus →
    ∃ new : List GtFeatureNode,
      (expandAgnLocus idx visited locus lg).locus.genes = locus.genes ++ new ∧
      (∀ x, x ∈ (expandAgnLocus idx visited locus lg).visited ↔
        x ∈ visited ∨ x ∈ new.map GtFeatureNode.fid) ∧
      (∀ fn ∈ new, fn ∈ idx.features ∧ fn.isgene = true ∧ fn.fid ∉ visited) ∧
      LocusInv idx.features (expandAgnLocus idx visited locus lg).locus ∧
      (∀ fn ∈ idx.features, fn.isgene = true →
        gt_range_overlap fn.range (expandAgnLocus idx visited locus lg).locus.range = true →
        fn.fid ∈ (expandAgnLocus idx visited locus lg).visited) ∧
      (expandAgnLocus idx visited locus lg).logger = lg := by
  intro visited locus lg
  induction visited, locus, lg using expandAgnLocus.induct idx with
  | case1 visited locus lg hpos ih =>
    intro hinv
    have hfetch : ∀ fn ∈ (idx.features.filter fun fn =>
        gt_range_overlap fn.range locus.range).reverse,
        fn ∈ idx.features ∧ gt_range_overlap fn.range locus.range = true := by
      intro fn hfn
      have := List.mem_reverse.mp hfn
      exact ⟨List.mem_of_mem_filter this, by simpa using List.of_mem_filter this⟩
    obtain ⟨new1, g1, g2, g3, g4, g5, _g6, g7⟩ := claimOverlapGenes_spec
      ((idx.features.filter fun fn => gt_range_overlap fn.range locus.range).reverse)
      visited locus 0 lg
    obtain ⟨k1, _k2, _k3⟩ := claimOverlapGenes_inv hv locus.range
      ((idx.features.filter fun fn => gt_range_overlap fn.range locus.range).reverse)
      visited locus 0 lg hfetch (le_refl _) (le_refl _) hinv
    rw [← agn_locus_index_test_overlap_eq hq] at g1 g2 g3 g5 g7 k1
    obtain ⟨new2, i1, i2, i3, i4, i5, i6⟩ := ih k1
    rw [expandAgnLocus, dif_pos hpos]
    refine ⟨new1 ++ new2, ?_, ?_, ?_, i4, i5, ?_⟩
    · rw [i1, g1, List.append_assoc]
    · intro x
      rw [i1] at *
      rw [i2 x, g2 x, List.map_append, List.mem_append]
      tauto
    · intro fn hfn
      rcases List.mem_append.mp hfn with h1 | h1
      · obtain ⟨ha, hb, hc⟩ := g4 fn h1
        exact ⟨(hfetch fn ha).1, hb, hc⟩
      · obtain ⟨ha, hb, hc⟩ := i3 fn h1
        exact ⟨ha, hb, fun hx => hc ((g2 fn.fid).mpr (Or.inl hx))⟩
    · rw [i6, g7]
  | case2 visited locus lg hpos =>
    intro hinv
    rw [expandAgnLocus, dif_neg hpos]
    have hcnt : (agn_locus_index_test_overlap idx visited locus lg).count = 0 := by
      omega
    obtain ⟨new1, g1, g2, g3, g4, g5, g6, g7⟩ := claimOverlapGenes_spec
      ((idx.features.filter fun fn => gt_range_overlap fn.range locus.range).reverse)
      visited locus 0 lg
    rw [← agn_locus_index_test_overlap_eq hq] at g1 g2 g3 g5 g6 g7
    have hnil : new1 = [] := by
      rw [g3] at hcnt
      simpa using List.eq_nil_of_length_eq_zero (by omega)
    have heq := g6 hnil
    refine ⟨[], ?_, ?_, by simp, ?_, ?_, ?_⟩
    · rw [heq]; simp
    · intro x; rw [heq]; simp
    · rw [heq]; exact hinv
    · intro fn hfn hgene hov
      rw [heq]
      have hmem : fn ∈ (idx.features.filter fun fn =>
          gt_range_overlap fn.range locus.range).reverse := by
        rw [List.mem_reverse]
        refine List.mem_filter.mpr ⟨hfn, ?_⟩
        rw [heq] at hov
        simpa using hov
      have := g5 fn hmem hgene
      rw [heq] at this
      exact this
    · rw [heq]

/-- A locus being sealed never claimed any identifier already in the visited
set, and all loci sealed earlier are closed under overlap queries against that
visited set, so the new hull cannot overlap an earlier hull. -/
theorem sealed_disjoint {fs : List GtFeatureNode} (hv : validFeatures fs)
    (L0 L : AgnLocus) (visited : List Nat)
    (h0 : LocusInv fs L0) (hL : LocusInv fs L)
    (hfp : ∀ fn ∈ fs, fn.isgene = true → gt_range_overlap fn.range L0.range = true →
      fn.fid ∈ visited)
    (hids : ∀ g ∈ L.genes, g.fid ∉ visited) :
    gt_range_overlap L0.range L.range = false := by
  by_contra hcon
  have hov : gt_range_overlap L0.range L.range = true := by
    cases h : gt_range_overlap L0.range L.range
    · exact absurd h hcon
    · rfl
  rw [gt_range_overlap_iff] at hov
  have hv0 := h0.range_valid hv
  have hvL := hL.range_valid hv
  obtain ⟨m, hm, hmx⟩ := hL.cov (max L0.range.start L.range.start) (by omega) (by omega)
  obtain ⟨m0, hm0, hm0x⟩ := h0.cov (max L0.range.start L.range.start) (by omega) (by omega)
  have hmov : gt_range_overlap m.range L0.range = true := by
    rw [gt_range_overlap_iff]
    omega
  have := hfp m (hL.mem m hm).1 (hL.mem m hm).2 hmov
  exact hids m hm this

/-- Invariant carried across the seed loop of `agn_locus_index_parse`: the
visited set is exactly the identifiers of genes already placed in sealed loci;
every sealed locus satisfies the locus invariant and is closed (every input gene
overlapping its hull is visited); gene identifier sets of distinct sealed loci
are disjoint, and their hulls do not overlap. -/
structure GoInv (fs : List GtFeatureNode) (visited : List Nat) (loci : List AgnLocus) :
    Prop where
  acct : ∀ x, x ∈ visited ↔ ∃ L ∈ loci, ∃ g ∈ L.genes, g.fid = x
  inv : ∀ L ∈ loci, LocusInv fs L
  closed : ∀ L ∈ loci, ∀ fn ∈ fs, fn.isgene = true →
    gt_range_overlap fn.range L.range = true → fn.fid ∈ visited
  iddisj : List.Pairwise (fun L1 L2 => ∀ g ∈ L1.genes, ∀ h ∈ L2.genes, g.fid ≠ h.fid) loci
  rdisj : List.Pairwise (fun L1 L2 => gt_range_overlap L1.range L2.range = false) loci

/-- Behavioural description of the seed loop (`agn_locus_index_parse_go`): it
preserves the global invariant over the accumulated loci, visits every gene of
the processed list, and leaves already-visited state intact. -/
theorem agn_locus_index_parse_go_spec (idx : GtFeatureIndex) (hq : idx.qerr = false)
    (hv : validFeatures idx.features) :
    ∀ (rest : List GtFeatureNode) (visited : List Nat) (lg : Nat)
      (loci : List AgnLocus),
    (∀ fn ∈ rest, fn ∈ idx.features) →
    GoInv idx.features visited loci →
    GoInv idx.features (agn_locus_index_parse_go idx rest visited lg).2.1
      (loci ++ (agn_locus_index_parse_go idx rest visited lg).1) ∧
    (∀ fn ∈ rest, fn.isgene = true →
      fn.fid ∈ (agn_locus_index_parse_go idx rest visited lg).2.1) ∧
    (∀ x ∈ visited, x ∈ (agn_locus_index_parse_go idx rest visited lg).2.1) ∧
    (agn_locus_index_parse_go idx rest visited lg).2.2 = lg := by
  intro rest
  induction rest with
  | nil =>
    intro visited lg loci _ hgo
    simp only [agn_locus_index_parse_go]
    refine ⟨by simpa using hgo, by simp, fun x hx => hx, by trivial⟩
  | cons fn rest ih =>
    intro visited lg loci hrest hgo
    by_cases hcl : fn.isgene = true ∧ fn.fid ∉ visited
    · have hstep : agn_locus_index_parse_go idx (fn :: rest) visited lg =
          ((expandAgnLocus idx visited (agn_locus_add agn_locus_new fn) lg).locus ::
            (agn_locus_index_parse_go idx rest
              (expandAgnLocus idx visited (agn_locus_add agn_locus_new fn) lg).visited
              (expandAgnLocus idx visited (agn_locus_add agn_locus_new fn) lg).logger).1,
           (agn_locus_index_parse_go idx rest
              (expandAgnLocus idx visited (agn_locus_add agn_locus_new fn) lg).visited
              (expandAgnLocus idx visited (agn_locus_add agn_locus_new fn) lg).logger).2) := by
        simp only [agn_locus_index_parse_go, if_pos hcl]
      have hfnfs : fn ∈ idx.features := hrest fn (List.mem_cons_self _ _)
      have hseed : LocusInv idx.features (agn_locus_add agn_locus_new fn) := by
        refine ⟨by simp [agn_locus_add, agn_locus_new], ?_, ?_, ?_, ?_⟩
        · intro g hg
          simp only [agn_locus_add, agn_locus_new, List.nil_append,
            List.mem_singleton] at hg
          rw [hg]; exact ⟨hfnfs, hcl.1⟩
        · intro g hg
          simp only [agn_locus_add, agn_locus_new, List.nil_append,
            List.mem_singleton] at hg
          rw [hg]
          simp [agn_locus_add, agn_locus_new]
        · intro x hx1 hx2
          simp only [agn_locus_add, agn_locus_new, List.isEmpty_nil] at hx1 hx2 ⊢
          exact ⟨fn, by simp, by simpa using hx1, by simpa using hx2⟩
        · intro g hg h hh
          simp only [agn_locus_add, agn_locus_new, List.nil_append,
            List.mem_singleton] at hg hh
          rw [hg, hh]
          exact Relation.ReflTransGen.refl
      obtain ⟨new, e1, e2, e3, e4, e5, e6⟩ :=
        expandAgnLocus_spec idx hq hv visited (agn_locus_add agn_locus_new fn) lg hseed
      set r := expandAgnLocus idx visited (agn_locus_add agn_locus_new fn) lg with hr
      have hrgenes : r.locus.genes = fn :: new := by
        rw [e1]; simp [agn_locus_add, agn_locus_new]
      -- the seed's identifier is claimed during the expansion
      have hfnv : fn.fid ∈ r.visited := by
        refine e5 fn hfnfs hcl.1 ?_
        have hhull := e4.hull fn (by rw [hrgenes]; exact List.mem_cons_self _ _)
        have hfv : fn.range.start ≤ fn.range.stop := hv fn hfnfs
        rw [gt_range_overlap_iff]
        omega
      -- each member id of the sealed locus is fresh w.r.t. the pre-seed visited set
      have hfresh : ∀ g ∈ r.locus.genes, g.fid ∉ visited := by
        intro g hg
        rw [hrgenes] at hg
        rcases List.mem_cons.mp hg with rfl | hg'
        · exact hcl.2
        · exact (e3 g hg').2.2
      -- the new visited set accounts exactly for the old loci plus the new one
      have hacct : ∀ x, x ∈ r.visited ↔
          ∃ L ∈ loci ++ [r.locus], ∃ g ∈ L.genes, g.fid = x := by
        intro x
        rw [e2]
        constructor
        · rintro (hx | hx)
          · obtain ⟨L, hLm, g, hgm, hgx⟩ := (hgo.acct x).mp hx
            exact ⟨L, List.mem_append.mpr (Or.inl hLm), g, hgm, hgx⟩
          · obtain ⟨g, hgm, hgx⟩ := List.mem_map.mp hx
            exact ⟨r.locus, List.mem_append.mpr (Or.inr (List.mem_singleton.mpr rfl)),
              g, by rw [hrgenes]; exact List.mem_cons_of_mem _ hgm, hgx⟩
        · rintro ⟨L, hLm, g, hgm, hgx⟩
          rcases List.mem_append.mp hLm with hL' | hL'
          · exact Or.inl ((hgo.acct x).mpr ⟨L, hL', g, hgm, hgx⟩)
          · rw [List.mem_singleton.mp hL'] at hgm
            rw [hrgenes] at hgm
            rcases List.mem_cons.mp hgm with rfl | hg'
            · subst hgx
              rcases (e2 _).mp hfnv with h' | h'
              · exact Or.inl h'
              · exact Or.inr h'
            · subst hgx
              exact Or.inr (List.mem_map_of_mem GtFeatureNode.fid hg')
      have hmono : ∀ x ∈ visited, x ∈ r.visited := fun x hx => (e2 x).mpr (Or.inl hx)
      have hgo' : GoInv idx.features r.visited (loci ++ [r.locus]) := by
        refine ⟨hacct, ?_, ?_, ?_, ?_⟩
        · intro L hL
          rcases List.mem_append.mp hL with h' | h'
          · exact hgo.inv L h'
          · rw [List.mem_singleton.mp h']; exact e4
        · intro L hL g hg hgene hov
          rcases List.mem_append.mp hL with h' | h'
          · exact hmono _ (hgo.closed L h' g hg hgene hov)
          · rw [List.mem_singleton.mp h'] at hov
            exact e5 g hg hgene hov
        · rw [List.pairwise_append]
          refine ⟨hgo.iddisj, by simp, ?_⟩
          intro L1 hL1 L2 hL2
          rw [List.mem_singleton.mp hL2]
          intro g hg h hh
          intro hgh
          have : g.fid ∈ visited := (hgo.acct g.fid).mpr ⟨L1, hL1, g, hg, rfl⟩
          rw [hgh] at this
          exact hfresh h hh this
        · rw [List.pairwise_append]
          refine ⟨hgo.rdisj, by simp, ?_⟩
          intro L1 hL1 L2 hL2
          rw [List.mem_singleton.mp hL2]
          exact sealed_disjoint hv L1 r.locus visited (hgo.inv L1 hL1) e4
            (hgo.closed L1 hL1) hfresh
      obtain ⟨j1, j2, j3, j4⟩ := ih r.visited r.logger (loci ++ [r.locus])
        (fun g hg => hrest g (List.mem_cons_of_mem _ hg)) hgo'
      rw [hstep]
      refine ⟨?_, ?_, ?_, ?_⟩
      · have : loci ++ r.locus ::
            (agn_locus_index_parse_go idx rest r.visited r.logger).1 =
            (loci ++ [r.locus]) ++
            (agn_locus_index_parse_go idx rest r.visited r.logger).1 := by
          simp
        rw [this]
        exact j1
      · intro g hg hgene
        rcases List.mem_cons.mp hg with rfl | hg'
        · exact j3 g.fid (hfnv)
        · exact j2 g hg' hgene
      · intro x hx
        exact j3 x (hmono x hx)
      · rw [j4, e6]
    · have hstep : agn_locus_index_parse_go idx (fn :: rest) visited lg =
          agn_locus_index_parse_go idx rest visited lg := by
        simp only [agn_locus_index_parse_go, if_neg hcl]
      rw [hstep]
      obtain ⟨j1, j2, j3, j4⟩ := ih visited lg loci
        (fun g hg => hrest g (List.mem_cons_of_mem _ hg)) hgo
      refine ⟨j1, ?_, j3, j4⟩
      intro g hg hgene
      rcases List.mem_cons.mp hg with rfl | hg'
      · rcases not_and_or.mp hcl with h' | h'
        · exact absurd hgene h'
        · exact j3 g.fid (not_not.mp h')
      · exact j2 g hg' hgene

/-- End-state facts of a successful single-source parse: the global invariant
holds for the full locus list and every input gene has been visited. -/
theorem agn_locus_index_parse_state (idx : GtFeatureIndex) (hq : idx.qerr = false)
    (hv : validFeatures idx.features) (lg : Nat) :
    GoInv idx.features (agn_locus_index_parse_go idx idx.features [] lg).2.1
      (agn_locus_index_parse_go idx idx.features [] lg).1 ∧
    (∀ fn ∈ idx.features, fn.isgene = true →
      fn.fid ∈ (agn_locus_index_parse_go idx idx.features [] lg).2.1) := by
  have h0 : GoInv idx.features [] [] := by
    refine ⟨?_, by simp, by simp, by simp, by simp⟩
    intro x
    simp
  obtain ⟨j1, j2, _j3, _j4⟩ := agn_locus_index_parse_go_spec idx hq hv idx.features [] lg []
    (fun _ h => h) h0
  rw [List.nil_append] at j1
  exact ⟨j1, j2⟩

/-- Completeness: every input gene feature lands in some produced locus (with
distinct features carrying distinct identifiers). -/
theorem parse_complete (idx : GtFeatureIndex) (hq : idx.qerr = false)
    (hv : validFeatures idx.features)
    (hnd : (idx.features.map GtFeatureNode.fid).Nodup) (lg : Nat)
    (fn : GtFeatureNode) (hfn : fn ∈ idx.features) (hgene : fn.isgene = true) :
    ∃ L ∈ (agn_locus_index_parse_go idx idx.features [] lg).1, fn ∈ L.genes := by
  obtain ⟨hgo, hall⟩ := agn_locus_index_parse_state idx hq hv lg
  obtain ⟨L, hL, g, hg, hgid⟩ := (hgo.acct fn.fid).mp (hall fn hfn hgene)
  have hge : g = fn :=
    List.inj_on_of_nodup_map hnd ((hgo.inv L hL).mem g hg).1 hfn hgid
  exact ⟨L, hL, hge ▸ hg⟩

/-- Uniqueness: a feature belongs to at most one produced locus. -/
theorem parse_unique (idx : GtFeatureIndex) (hq : idx.qerr = false)
    (hv : validFeatures idx.features) (lg : Nat)
    (fn : GtFeatureNode) (L L' : AgnLocus)
    (hL : L ∈ (agn_locus_index_parse_go idx idx.features [] lg).1)
    (hL' : L' ∈ (agn_locus_index_parse_go idx idx.features [] lg).1)
    (hm : fn ∈ L.genes) (hm' : fn ∈ L'.genes) : L = L' := by
  obtain ⟨hgo, _⟩ := agn_locus_index_parse_state idx hq hv lg
  by_contra hne
  have hsymm : Symmetric
      (fun L1 L2 : AgnLocus => ∀ g ∈ L1.genes, ∀ h ∈ L2.genes, g.fid ≠ h.fid) := by
    intro L1 L2 h g hg h' hh'
    exact (h h' hh' g hg).symm
  exact hgo.iddisj.forall hsymm hL hL' hne fn hm fn hm' rfl

/-- One overlap edge between genes in distinct loci is impossible: members lie
inside their hulls, so the hulls would overlap, contradicting hull
disjointness. -/
theorem parse_edge_same_locus (idx : GtFeatureIndex) (hq : idx.qerr = false)
    (hv : validFeatures idx.features)
    (hnd : (idx.features.map GtFeatureNode.fid).Nodup) (lg : Nat)
    (a b : GtFeatureNode) (hedge : overlapEdge idx.features a b)
    (L : AgnLocus) (hL : L ∈ (agn_locus_index_parse_go idx idx.features [] lg).1)
    (ha : a ∈ L.genes) : b ∈ L.genes := by
  obtain ⟨hgo, _⟩ := agn_locus_index_parse_state idx hq hv lg
  obtain ⟨hafs, hbfs, hag, hbg, hov⟩ := hedge
  obtain ⟨L', hL', hb⟩ := parse_complete idx hq hv hnd lg b hbfs hbg
  have hLL : L = L' := by
    by_contra hne
    have hsymm : Symmetric
        (fun L1 L2 : AgnLocus => gt_range_overlap L1.range L2.range = false) := by
      intro L1 L2 h
      cases hh : gt_range_overlap L2.range L1.range
      · rfl
      · rw [gt_range_overlap_iff] at hh
        have h2 : gt_range_overlap L1.range L2.range = true := by
          rw [gt_range_overlap_iff]; omega
        rw [h2] at h
        cases h
    have hdis := hgo.rdisj.forall hsymm hL hL' hne
    have h1 := (hgo.inv L hL).hull a ha
    have h2 := (hgo.inv L' hL').hull b hb
    rw [gt_range_overlap_iff] at hov
    have : gt_range_overlap L.range L'.range = true := by
      rw [gt_range_overlap_iff]
      omega
    rw [this] at hdis
    cases hdis
  exact hLL ▸ hb

/-- A whole overlap chain stays within one produced locus. -/
theorem parse_conn_same_locus (idx : GtFeatureIndex) (hq : idx.qerr = false)
    (hv : validFeatures idx.features)
    (hnd : (idx.features.map GtFeatureNode.fid).Nodup) (lg : Nat)
    (a b : GtFeatureNode) (hconn : overlapConn idx.features a b)
    (L : AgnLocus) (hL : L ∈ (agn_locus_index_parse_go idx idx.features [] lg).1)
    (ha : a ∈ L.genes) : b ∈ L.genes := by
  induction hconn with
  | refl => exact ha
  | tail _hab hbc ih => exact parse_edge_same_locus idx hq hv hnd lg _ _ hbc L hL ih

/-- The spec's concrete clustering scenario: three reference genes at
[10,50], [45,90], [200,250] on one sequence. -/
def chr1_gene1 : GtFeatureNode := ⟨1, ⟨10, 50⟩, true⟩

def chr1_gene2 : GtFeatureNode := ⟨2, ⟨45, 90⟩, true⟩

def chr1_gene3 : GtFeatureNode := ⟨3, ⟨200, 250⟩, true⟩

def chr1_index : GtFeatureIndex := ⟨[chr1_gene1, chr1_gene2, chr1_gene3], false, false⟩

/-- Evaluation of the clusterer on the spec's concrete scenario. -/
theorem chr1_parse_eval :
    agn_locus_index_parse chr1_index 0 =
      (some [⟨⟨10, 90⟩, [chr1_gene1, chr1_gene2, chr1_gene1]⟩,
             ⟨⟨200, 250⟩, [chr1_gene3, chr1_gene3]⟩], 0) := by
  simp [agn_locus_index_parse, chr1_index, agn_locus_index_parse_go, expandAgnLocus,
    agn_locus_index_test_overlap, claimOverlapGenes, agn_locus_add, agn_locus_new,
    gt_range_overlap, gt_range_join, chr1_gene1, chr1_gene2, chr1_gene3]

/-- Claim C1: the locus clusterer produces a partition in which two genes share
a locus iff they are connected by a chain of pairwise-overlapping coordinate
ranges; on the concrete scenario [10,50],[45,90],[200,250] it produces exactly
two loci, one spanning [10,90] holding the first two genes and one spanning
[200,250] holding the third. -/
theorem agn_locus_index_parse_partition_by_overlap_chains :
    (∀ (fs : List GtFeatureNode) (loci : List AgnLocus) (lg lg' : Nat),
      validFeatures fs → (fs.map GtFeatureNode.fid).Nodup →
      agn_locus_index_parse ⟨fs, false, false⟩ lg = (some loci, lg') →
      ∀ g ∈ fs, ∀ h ∈ fs, g.isgene = true → h.isgene = true →
        ((∃ L ∈ loci, g ∈ L.genes ∧ h ∈ L.genes) ↔ overlapConn fs g h)) ∧
    (∃ L1 L2 : AgnLocus,
      (agn_locus_index_parse chr1_index 0).1 = some [L1, L2] ∧
      L1.range = ⟨10, 90⟩ ∧ L2.range = ⟨200, 250⟩ ∧
      chr1_gene1 ∈ L1.genes ∧ chr1_gene2 ∈ L1.genes ∧ chr1_gene3 ∉ L1.genes ∧
      chr1_gene3 ∈ L2.genes ∧ chr1_gene1 ∉ L2.genes ∧ chr1_gene2 ∉ L2.genes) := by
  constructor
  · intro fs loci lg lg' hv hnd hp g hg h hh hgg hhg
    have hq : (⟨fs, false, false⟩ : GtFeatureIndex).qerr = false := rfl
    have hloci : loci = (agn_locus_index_parse_go ⟨fs, false, false⟩ fs [] lg).1 := by
      simp only [agn_locus_index_parse, if_neg (by simp : ¬ (⟨fs, false, false⟩ :
        GtFeatureIndex).serr = true)] at hp
      exact (Option.some.inj (congrArg Prod.fst hp)).symm
    obtain ⟨hgo, _⟩ := agn_locus_index_parse_state ⟨fs, false, false⟩ hq hv lg
    constructor
    · rintro ⟨L, hL, hgL, hhL⟩
      rw [hloci] at hL
      exact (hgo.inv L hL).conn g hgL h hhL
    · intro hconn
      obtain ⟨L, hL, hgL⟩ := parse_complete ⟨fs, false, false⟩ hq hv hnd lg g hg hgg
      have hhL := parse_conn_same_locus ⟨fs, false, false⟩ hq hv hnd lg g h hconn L hL hgL
      exact ⟨L, hloci ▸ hL, hgL, hhL⟩
  · refine ⟨⟨⟨10, 90⟩, [chr1_gene1, chr1_gene2, chr1_gene1]⟩,
      ⟨⟨200, 250⟩, [chr1_gene3, chr1_gene3]⟩, ?_, rfl, rfl, ?_, ?_, ?_, ?_, ?_, ?_⟩
    · rw [chr1_parse_eval]
    all_goals decide

/-- Witness for C1: the partition/connectivity equivalence applied to the
concrete three-gene scenario, all hypotheses discharged by evaluation. -/
theorem agn_locus_index_parse_partition_by_overlap_chains_witness :
    overlapConn chr1_index.features chr1_gene1 chr1_gene2 := by
  have hiff := agn_locus_index_parse_partition_by_overlap_chains.1
    chr1_index.features
    [⟨⟨10, 90⟩, [chr1_gene1, chr1_gene2, chr1_gene1]⟩,
     ⟨⟨200, 250⟩, [chr1_gene3, chr1_gene3]⟩] 0 0
    (by simp [validFeatures, chr1_index, chr1_gene1, chr1_gene2, chr1_gene3])
    (by decide)
    (by rw [show (⟨chr1_index.features, false, false⟩ : GtFeatureIndex) = chr1_index by rfl,
          chr1_parse_eval])
    chr1_gene1 (by decide) chr1_gene2 (by decide) (by decide) (by decide)
  exact hiff.mp ⟨⟨⟨10, 90⟩, [chr1_gene1, chr1_gene2, chr1_gene1]⟩, by decide, by decide, by decide⟩

/-- Claim C2: the produced loci form a complete, maximal partition — every
input gene feature belongs to exactly one locus, and ranges of distinct loci
never overlap. -/
theorem agn_locus_index_parse_partition_complete_maximal :
    ∀ (fs : List GtFeatureNode) (loci : List AgnLocus) (lg lg' : Nat),
      validFeatures fs → (fs.map GtFeatureNode.fid).Nodup →
      agn_locus_index_parse ⟨fs, false, false⟩ lg = (some loci, lg') →
      (∀ fn ∈ fs, fn.isgene = true →
        ∃ L ∈ loci, fn ∈ L.genes ∧ ∀ L' ∈ loci, fn ∈ L'.genes → L' = L) ∧
      List.Pairwise (fun L1 L2 => gt_range_overlap L1.range L2.range = false) loci := by
  intro fs loci lg lg' hv hnd hp
  have hq : (⟨fs, false, false⟩ : GtFeatureIndex).qerr = false := rfl
  have hloci : loci = (agn_locus_index_parse_go ⟨fs, false, false⟩ fs [] lg).1 := by
    simp only [agn_locus_index_parse, if_neg (by simp : ¬ (⟨fs, false, false⟩ :
      GtFeatureIndex).serr = true)] at hp
    exact (Option.some.inj (congrArg Prod.fst hp)).symm
  obtain ⟨hgo, _⟩ := agn_locus_index_parse_state ⟨fs, false, false⟩ hq hv lg
  constructor
  · intro fn hfn hgene
    obtain ⟨L, hL, hmem⟩ := parse_complete ⟨fs, false, false⟩ hq hv hnd lg fn hfn hgene
    refine ⟨L, hloci ▸ hL, hmem, ?_⟩
    intro L' hL' hmem'
    exact parse_unique ⟨fs, false, false⟩ hq hv lg fn L' L (hloci ▸ hL') hL hmem' hmem
  · rw [hloci]
    exact hgo.rdisj

/-- Witness for C2 at the concrete three-gene scenario. -/
theorem agn_locus_index_parse_partition_complete_maximal_witness :
    List.Pairwise (fun L1 L2 => gt_range_overlap L1.range L2.range = false)
      [⟨⟨10, 90⟩, [chr1_gene1, chr1_gene2, chr1_gene1]⟩,
       (⟨⟨200, 250⟩, [chr1_gene3, chr1_gene3]⟩ : AgnLocus)] := by
  refine (agn_locus_index_parse_partition_complete_maximal chr1_index.features _ 0 0
    (by simp [validFeatures, chr1_index, chr1_gene1, chr1_gene2, chr1_gene3])
    (by decide) ?_).2
  rw [show (⟨chr1_index.features, false, false⟩ : GtFeatureIndex) = chr1_index by rfl,
    chr1_parse_eval]

/-- Overlap chains only depend on the membership of the input list, so they are
stable under permutation. -/
theorem overlapConn_perm {fs fs' : List GtFeatureNode} (hp : fs.Perm fs')
    {a b : GtFeatureNode} (h : overlapConn fs a b) : overlapConn fs' a b := by
  refine Relation.ReflTransGen.mono ?_ h
  rintro x y ⟨h1, h2, h3, h4, h5⟩
  exact ⟨hp.mem_iff.mp h1, hp.mem_iff.mp h2, h3, h4, h5⟩

/-- The endpoints of a sealed locus's range are attained by members. -/
theorem locus_range_ends {fs : List GtFeatureNode} (hv : validFeatures fs)
    {L : AgnLocus} (hL : LocusInv fs L) :
    (∃ m ∈ L.genes, m.range.start = L.range.start) ∧
    (∃ m ∈ L.genes, m.range.stop = L.range.stop) := by
  have hrv := hL.range_valid hv
  constructor
  · obtain ⟨m, hm, hmx⟩ := hL.cov L.range.start (le_refl _) hrv
    have := hL.hull m hm
    exact ⟨m, hm, by omega⟩
  · obtain ⟨m, hm, hmx⟩ := hL.cov L.range.stop hrv (le_refl _)
    have h1 := hL.hull m hm
    have h2 := hv m (hL.mem m hm).1
    exact ⟨m, hm, by omega⟩

/-- Characterisation of a sealed locus's members: exactly the input genes
connected to any fixed member by an overlap chain. -/
theorem parse_locus_members (idx : GtFeatureIndex) (hq : idx.qerr = false)
    (hv : validFeatures idx.features)
    (hnd : (idx.features.map GtFeatureNode.fid).Nodup) (lg : Nat)
    (L : AgnLocus) (hL : L ∈ (agn_locus_index_parse_go idx idx.features [] lg).1)
    (g : GtFeatureNode) (hg : g ∈ L.genes) :
    ∀ m, m ∈ L.genes ↔
      (m ∈ idx.features ∧ m.isgene = true ∧ overlapConn idx.features m g) := by
  obtain ⟨hgo, _⟩ := agn_locus_index_parse_state idx hq hv lg
  intro m
  constructor
  · intro hm
    obtain ⟨h1, h2⟩ := (hgo.inv L hL).mem m hm
    exact ⟨h1, h2, (hgo.inv L hL).conn m hm g hg⟩
  · rintro ⟨h1, h2, h3⟩
    obtain ⟨L', hL', hm'⟩ := parse_complete idx hq hv hnd lg m h1 h2
    have hgL' := parse_conn_same_locus idx hq hv hnd lg m g h3 L' hL' hm'
    have : L' = L := parse_unique idx hq hv lg g L' L hL' hL hgL' hg
    exact this ▸ hm'

/-- The observable identity of a locus: its coordinate range together with the
set of member feature identifiers. -/
def locusKey (L : AgnLocus) : GtRange × Finset Nat :=
  (L.range, (L.genes.map GtFeatureNode.fid).toFinset)

/-- Every locus produced from `fs` has an identically-keyed counterpart among
the loci produced from any permutation `fs'` of `fs`. -/
theorem parse_key_transfer (fs fs' : List GtFeatureNode) (hperm : fs.Perm fs')
    (hv : validFeatures fs) (hnd : (fs.map GtFeatureNode.fid).Nodup) (lg lg' : Nat)
    (L : AgnLocus)
    (hL : L ∈ (agn_locus_index_parse_go ⟨fs, false, false⟩ fs [] lg).1) :
    ∃ L' ∈ (agn_locus_index_parse_go ⟨fs', false, false⟩ fs' [] lg').1,
      locusKey L' = locusKey L := by
  have hq : (⟨fs, false, false⟩ : GtFeatureIndex).qerr = false := rfl
  have hq' : (⟨fs', false, false⟩ : GtFeatureIndex).qerr = false := rfl
  have hv' : validFeatures fs' := fun f hf => hv f (hperm.mem_iff.mpr hf)
  have hnd' : (fs'.map GtFeatureNode.fid).Nodup :=
    ((hperm.map GtFeatureNode.fid).nodup_iff).mp hnd
  obtain ⟨hgo, _⟩ := agn_locus_index_parse_state ⟨fs, false, false⟩ hq hv lg
  obtain ⟨hgo', _⟩ := agn_locus_index_parse_state ⟨fs', false, false⟩ hq' hv' lg'
  obtain ⟨g, hg⟩ := List.exists_mem_of_ne_nil _ (hgo.inv L hL).ne
  obtain ⟨hgfs, hgg⟩ := (hgo.inv L hL).mem g hg
  obtain ⟨L', hL', hg'⟩ := parse_complete ⟨fs', false, false⟩ hq' hv' hnd' lg' g
    (hperm.mem_iff.mp hgfs) hgg
  have hmem := parse_locus_members ⟨fs, false, false⟩ hq hv hnd lg L hL g hg
  have hmem' := parse_locus_members ⟨fs', false, false⟩ hq' hv' hnd' lg' L' hL' g hg'
  have hiff : ∀ m, m ∈ L.genes ↔ m ∈ L'.genes := by
    intro m
    rw [hmem m, hmem' m]
    constructor
    · rintro ⟨h1, h2, h3⟩
      exact ⟨hperm.mem_iff.mp h1, h2, overlapConn_perm hperm h3⟩
    · rintro ⟨h1, h2, h3⟩
      exact ⟨hperm.mem_iff.mpr h1, h2, overlapConn_perm hperm.symm h3⟩
  refine ⟨L', hL', ?_⟩
  obtain ⟨⟨ms, hms, hmseq⟩, ⟨mt, hmt, hmteq⟩⟩ := locus_range_ends hv (hgo.inv L hL)
  obtain ⟨⟨ms', hms', hmseq'⟩, ⟨mt', hmt', hmteq'⟩⟩ := locus_range_ends hv' (hgo'.inv L' hL')
  have hrange : L'.range = L.range := by
    have h1 : L'.range.start = L.range.start := by
      have ha := ((hgo'.inv L' hL').hull ms ((hiff ms).mp hms)).1
      have hb := ((hgo.inv L hL).hull ms' ((hiff ms').mpr hms')).1
      omega
    have h2 : L'.range.stop = L.range.stop := by
      have ha := ((hgo'.inv L' hL').hull mt ((hiff mt).mp hmt)).2
      have hb := ((hgo.inv L hL).hull mt' ((hiff mt').mpr hmt')).2
      omega
    exact GtRange.ext h1 h2
  have hsets : (L'.genes.map GtFeatureNode.fid).toFinset =
      (L.genes.map GtFeatureNode.fid).toFinset := by
    apply Finset.ext
    intro x
    simp only [List.mem_toFinset, List.mem_map]
    constructor
    · rintro ⟨m, hm, hx⟩
      exact ⟨m, (hiff m).mpr hm, hx⟩
    · rintro ⟨m, hm, hx⟩
      exact ⟨m, (hiff m).mp hm, hx⟩
  simp only [locusKey, hrange, hsets]

/-- Claim C3: permuting the input feature order yields an identical locus
partition — the same set of loci by coordinate range and gene membership. -/
theorem agn_locus_index_parse_order_independent :
    ∀ (fs fs' : List GtFeatureNode) (loci loci' : List AgnLocus) (lg1 lg1' lg2 lg2' : Nat),
      fs.Perm fs' → validFeatures fs → (fs.map GtFeatureNode.fid).Nodup →
      agn_locus_index_parse ⟨fs, false, false⟩ lg1 = (some loci, lg1') →
      agn_locus_index_parse ⟨fs', false, false⟩ lg2 = (some loci', lg2') →
      (loci.map locusKey).toFinset = (loci'.map locusKey).toFinset := by
  intro fs fs' loci loci' lg1 lg1' lg2 lg2' hperm hv hnd hp hp'
  have hv' : validFeatures fs' := fun f hf => hv f (hperm.mem_iff.mpr hf)
  have hnd' : (fs'.map GtFeatureNode.fid).Nodup :=
    ((hperm.map GtFeatureNode.fid).nodup_iff).mp hnd
  have hloci : loci = (agn_locus_index_parse_go ⟨fs, false, false⟩ fs [] lg1).1 := by
    simp only [agn_locus_index_parse, if_neg (by simp : ¬ (⟨fs, false, false⟩ :
      GtFeatureIndex).serr = true)] at hp
    exact (Option.some.inj (congrArg Prod.fst hp)).symm
  have hloci' : loci' = (agn_locus_index_parse_go ⟨fs', false, false⟩ fs' [] lg2).1 := by
    simp only [agn_locus_index_parse, if_neg (by simp : ¬ (⟨fs', false, false⟩ :
      GtFeatureIndex).serr = true)] at hp'
    exact (Option.some.inj (congrArg Prod.fst hp')).symm
  apply Finset.ext
  intro k
  simp only [List.mem_toFinset, List.mem_map]
  constructor
  · rintro ⟨L, hLm, hk⟩
    obtain ⟨L', hL', hkey⟩ := parse_key_transfer fs fs' hperm hv hnd lg1 lg2 L
      (hloci ▸ hLm)
    exact ⟨L', hloci' ▸ hL', by rw [hkey, hk]⟩
  · rintro ⟨L', hLm', hk⟩
    obtain ⟨L, hL, hkey⟩ := parse_key_transfer fs' fs hperm.symm hv' hnd' lg2 lg1 L'
      (hloci' ▸ hLm')
    exact ⟨L, hloci ▸ hL, by rw [hkey, hk]⟩

/-- Evaluation of the clusterer on the reversed concrete scenario. -/
theorem chr1_rev_parse_eval :
    agn_locus_index_parse ⟨[chr1_gene3, chr1_gene2, chr1_gene1], false, false⟩ 0 =
      (some [⟨⟨200, 250⟩, [chr1_gene3, chr1_gene3]⟩,
             ⟨⟨10, 90⟩, [chr1_gene2, chr1_gene1, chr1_gene2]⟩], 0) := by
  simp [agn_locus_index_parse, agn_locus_index_parse_go, expandAgnLocus,
    agn_locus_index_test_overlap, claimOverlapGenes, agn_locus_add, agn_locus_new,
    gt_range_overlap, gt_range_join, chr1_gene1, chr1_gene2, chr1_gene3]

/-- Witness for C3: the three-gene scenario and its reversal produce the same
keyed locus set. -/
theorem agn_locus_index_parse_order_independent_witness :
    (([⟨⟨10, 90⟩, [chr1_gene1, chr1_gene2, chr1_gene1]⟩,
       (⟨⟨200, 250⟩, [chr1_gene3, chr1_gene3]⟩ : AgnLocus)]).map locusKey).toFinset =
    (([⟨⟨200, 250⟩, [chr1_gene3, chr1_gene3]⟩,
       (⟨⟨10, 90⟩, [chr1_gene2, chr1_gene1, chr1_gene2]⟩ : AgnLocus)]).map locusKey).toFinset := by
  refine agn_locus_index_parse_order_independent chr1_index.features
    [chr1_gene3, chr1_gene2, chr1_gene1] _ _ 0 0 0 0
    (by decide)
    (by simp [validFeatures, chr1_index, chr1_gene1, chr1_gene2, chr1_gene3])
    (by decide) ?_ chr1_rev_parse_eval
  rw [show (⟨chr1_index.features, false, false⟩ : GtFeatureIndex) = chr1_index by rfl,
    chr1_parse_eval]

/-- A pairwise comparison locus (`AgnPairwiseCompareLocus`): reference genes,
prediction genes and the coordinate range. -/
structure AgnPairwiseCompareLocus where
  refr_genes : List GtFeatureNode
  pred_genes : List GtFeatureNode
  range : GtRange
deriving DecidableEq, Repr

/-- Modelled from the spec: `agn_pairwise_compare_locus_new`
(AgnPairwiseCompareLocus.c is not among the provided sources): a locus with no
genes yet. -/
def agn_pairwise_compare_locus_new : AgnPairwiseCompareLocus := ⟨[], [], ⟨0, 0⟩⟩

/-- Modelled from the spec: `agn_pairwise_compare_locus_add_refr_gene` — per the
spec the locus range is the union (hull) of all contained features' ranges. -/
def agn_pairwise_compare_locus_add_refr_gene (locus : AgnPairwiseCompareLocus)
    (fn : GtFeatureNode) : AgnPairwiseCompareLocus :=
  { refr_genes := locus.refr_genes ++ [fn]
    pred_genes := locus.pred_genes
    range := if locus.refr_genes.isEmpty && locus.pred_genes.isEmpty then fn.range
             else gt_range_join locus.range fn.range }

/-- Modelled from the spec: `agn_pairwise_compare_locus_add_pred_gene`. -/
def agn_pairwise_compare_locus_add_pred_gene (locus : AgnPairwiseCompareLocus)
    (fn : GtFeatureNode) : AgnPairwiseCompareLocus :=
  { refr_genes := locus.refr_genes
    pred_genes := locus.pred_genes ++ [fn]
    range := if locus.refr_genes.isEmpty && locus.pred_genes.isEmpty then fn.range
             else gt_range_join locus.range fn.range }

/-- Embeds `agn_pairwise_compare_locus_get_start`. -/
def agn_pairwise_compare_locus_get_start (locus : AgnPairwiseCompareLocus) : Nat :=
  locus.range.start

/-- Embeds `agn_pairwise_compare_locus_get_end`. -/
def agn_pairwise_compare_locus_get_end (locus : AgnPairwiseCompareLocus) : Nat :=
  locus.range.stop

/-- Result of one pairwise overlap-query-and-claim call. -/
structure PairOverlapRes where
  visited : List Nat
  locus : AgnPairwiseCompareLocus
  count : Nat
  logger : Nat
deriving DecidableEq, Repr

/-- Embeds the claim loop of `agn_locus_index_pairwise_test_overlap`: pop each
fetched feature and, when unvisited, mark it, add it via `add_func` and count
it.  Unlike the single-source claim loop there is no gene-type check. -/
def pclaimGenes (addf : AgnPairwiseCompareLocus → GtFeatureNode → AgnPairwiseCompareLocus) :
    List GtFeatureNode → List Nat → AgnPairwiseCompareLocus → Nat →
    List Nat × AgnPairwiseCompareLocus × Nat
  | [], visited, locus, cnt => (visited, locus, cnt)
  | fn :: rest, visited, locus, cnt =>
    if fn.fid ∈ visited then pclaimGenes addf rest visited locus cnt
    else pclaimGenes addf rest (fn.fid :: visited) (addf locus fn) (cnt + 1)

/-- Embeds `agn_locus_index_pairwise_test_overlap` (AgnLocusIndex.c).  The
parameter `c0` is the initial value of the C local `new_gene_count`, which the
source reads UNINITIALIZED (its sibling `agn_locus_index_test_overlap`
initialises its counter to 0, and this function's doc comment promises to
return "the number of genes assigned to the locus").  On a query error the
error is logged and control falls through to the (empty) claim loop: there is
no early return here. -/
def agn_locus_index_pairwise_test_overlap (features : GtFeatureIndex)
    (visited : List Nat) (locus : AgnPairwiseCompareLocus)
    (addf : AgnPairwiseCompareLocus → GtFeatureNode → AgnPairwiseCompareLocus)
    (c0 : Nat) (lg : Nat) : PairOverlapRes :=
  if features.qerr then
    ⟨visited, locus, c0, lg + 1⟩
  else
    let r := pclaimGenes addf
      ((features.features.filter fun fn => gt_range_overlap fn.range
        ⟨agn_pairwise_compare_locus_get_start locus,
         agn_pairwise_compare_locus_get_end locus⟩).reverse)
      visited locus c0
    ⟨r.1, r.2.1, r.2.2, lg⟩

/-- Behavioural description of the pairwise claim loop: the newly visited
identifiers come from the processed list and were unvisited, and the count
returned is the initial counter value plus their number. -/
theorem pclaimGenes_spec
    (addf : AgnPairwiseCompareLocus → GtFeatureNode → AgnPairwiseCompareLocus)
    (l : List GtFeatureNode) :
    ∀ (visited : List Nat) (locus : AgnPairwiseCompareLocus) (cnt : Nat),
    ∃ newIds : List Nat,
      (∀ x, x ∈ (pclaimGenes addf l visited locus cnt).1 ↔ x ∈ visited ∨ x ∈ newIds) ∧
      (pclaimGenes addf l visited locus cnt).2.2 = cnt + newIds.length ∧
      (∀ x ∈ newIds, x ∈ l.map GtFeatureNode.fid ∧ x ∉ visited) := by
  induction l with
  | nil =>
    intro visited locus cnt
    exact ⟨[], by simp [pclaimGenes]⟩
  | cons fn rest ih =>
    intro visited locus cnt
    by_cases hvv : fn.fid ∈ visited
    · obtain ⟨newIds, h1, h2, h3⟩ := ih visited locus cnt
      have hstep : pclaimGenes addf (fn :: rest) visited locus cnt =
          pclaimGenes addf rest visited locus cnt := by
        simp [pclaimGenes, hvv]
      refine ⟨newIds, by rw [hstep]; exact h1, by rw [hstep]; exact h2, ?_⟩
      intro x hx
      obtain ⟨ha, hb⟩ := h3 x hx
      exact ⟨by simp at ha ⊢; tauto, hb⟩
    · obtain ⟨newIds, h1, h2, h3⟩ := ih (fn.fid :: visited) (addf locus fn) (cnt + 1)
      have hstep : pclaimGenes addf (fn :: rest) visited locus cnt =
          pclaimGenes addf rest (fn.fid :: visited) (addf locus fn) (cnt + 1) := by
        simp [pclaimGenes, hvv]
      refine ⟨fn.fid :: newIds, ?_, ?_, ?_⟩
      · intro x
        rw [hstep, h1 x]
        simp only [List.mem_cons]
        tauto
      · rw [hstep, h2]; simp; omega
      · intro x hx
        rcases List.mem_cons.mp hx with rfl | hx'
        · exact ⟨by simp, hvv⟩
        · obtain ⟨ha, hb⟩ := h3 x hx'
          refine ⟨by simp at ha ⊢; tauto, ?_⟩
          intro hc
          exact hb (List.mem_cons_of_mem _ hc)

/-- The pairwise claim loop is oblivious to the initial counter value except for
adding it to the result: C9's uninitialized counter shifts the return value. -/
theorem pclaimGenes_count_offset
    (addf : AgnPairwiseCompareLocus → GtFeatureNode → AgnPairwiseCompareLocus)
    (l : List GtFeatureNode) :
    ∀ (visited : List Nat) (locus : AgnPairwiseCompareLocus) (c0 : Nat),
      (pclaimGenes addf l visited locus c0).1 = (pclaimGenes addf l visited locus 0).1 ∧
      (pclaimGenes addf l visited locus c0).2.1 = (pclaimGenes addf l visited locus 0).2.1 ∧
      (pclaimGenes addf l visited locus c0).2.2 =
        c0 + (pclaimGenes addf l visited locus 0).2.2 := by
  induction l with
  | nil =>
    intro visited locus c0
    simp [pclaimGenes]
  | cons fn rest ih =>
    intro visited locus c0
    by_cases hvv : fn.fid ∈ visited
    · simpa [pclaimGenes, hvv] using ih visited locus c0
    · simp only [pclaimGenes, if_neg hvv]
      obtain ⟨a1, a2, a3⟩ := ih (fn.fid :: visited) (addf locus fn) (c0 + 1)
      obtain ⟨b1, b2, b3⟩ := ih (fn.fid :: visited) (addf locus fn) 1
      refine ⟨by rw [a1, b1], by rw [a2, b2], ?_⟩
      rw [a3, b3]
      omega

/-- Behavioural description of one pairwise overlap query: newly visited ids
come from the queried index and were unvisited; on an error the query yields
nothing and one more error is logged. -/
theorem agn_locus_index_pairwise_test_overlap_spec (features : GtFeatureIndex)
    (visited : List Nat) (locus : AgnPairwiseCompareLocus)
    (addf : AgnPairwiseCompareLocus → GtFeatureNode → AgnPairwiseCompareLocus)
    (c0 lg : Nat) :
    ∃ newIds : List Nat,
      (∀ x, x ∈ (agn_locus_index_pairwise_test_overlap features visited locus addf c0 lg).visited
        ↔ x ∈ visited ∨ x ∈ newIds) ∧
      (agn_locus_index_pairwise_test_overlap features visited locus addf c0 lg).count =
        c0 + newIds.length ∧
      (∀ x ∈ newIds, x ∈ features.features.map GtFeatureNode.fid ∧ x ∉ visited) ∧
      (agn_locus_index_pairwise_test_overlap features visited locus addf c0 lg).logger =
        (if features.qerr then lg + 1 else lg) := by
  by_cases hq : features.qerr
  · exact ⟨[], by simp [agn_locus_index_pairwise_test_overlap, hq]⟩
  · obtain ⟨newIds, h1, h2, h3⟩ := pclaimGenes_spec addf
      ((features.features.filter fun fn => gt_range_overlap fn.range
        ⟨agn_pairwise_compare_locus_get_start locus,
         agn_pairwise_compare_locus_get_end locus⟩).reverse) visited locus c0
    refine ⟨newIds, ?_, ?_, ?_, by simp [agn_locus_index_pairwise_test_overlap, hq]⟩
    · intro x
      simpa [agn_locus_index_pairwise_test_overlap, hq] using h1 x
    · simpa [agn_locus_index_pairwise_test_overlap, hq] using h2
    · intro x hx
      obtain ⟨ha, hb⟩ := h3 x hx
      refine ⟨?_, hb⟩
      obtain ⟨fn, hfn, hfx⟩ := List.mem_map.mp ha
      exact List.mem_map.mpr ⟨fn, List.mem_of_mem_filter (List.mem_reverse.mp hfn), hfx⟩

/-- If the two pairwise overlap queries raised no error and together claimed a
positive count, the pairwise unvisited measure strictly decreases. -/
theorem pairwise_round_progress (refr pred : GtFeatureIndex) (visited : List Nat)
    (locus : AgnPairwiseCompareLocus) (lg : Nat)
    (hcnt : 0 < (agn_locus_index_pairwise_test_overlap refr visited locus
        agn_pairwise_compare_locus_add_refr_gene 0 lg).count +
      (agn_locus_index_pairwise_test_overlap pred
        (agn_locus_index_pairwise_test_overlap refr visited locus
          agn_pairwise_compare_locus_add_refr_gene 0 lg).visited
        (agn_locus_index_pairwise_test_overlap refr visited locus
          agn_pairwise_compare_locus_add_refr_gene 0 lg).locus
        agn_pairwise_compare_locus_add_pred_gene 0
        (agn_locus_index_pairwise_test_overlap refr visited locus
          agn_pairwise_compare_locus_add_refr_gene 0 lg).logger).count) :
    unvisitedGeneCount (refr.features ++ pred.features)
      (agn_locus_index_pairwise_test_overlap pred
        (agn_locus_index_pairwise_test_overlap refr visited locus
          agn_pairwise_compare_locus_add_refr_gene 0 lg).visited
        (agn_locus_index_pairwise_test_overlap refr visited locus
          agn_pairwise_compare_locus_add_refr_gene 0 lg).locus
        agn_pairwise_compare_locus_add_pred_gene 0
        (agn_locus_index_pairwise_test_overlap refr visited locus
          agn_pairwise_compare_locus_add_refr_gene 0 lg).logger).visited <
      unvisitedGeneCount (refr.features ++ pred.features) visited := by
  obtain ⟨ids1, a1, a2, a3, _a4⟩ := agn_locus_index_pairwise_test_overlap_spec refr visited
    locus agn_pairwise_compare_locus_add_refr_gene 0 lg
  obtain ⟨ids2, b1, b2, b3, _b4⟩ := agn_locus_index_pairwise_test_overlap_spec pred
    (agn_locus_index_pairwise_test_overlap refr visited locus
      agn_pairwise_compare_locus_add_refr_gene 0 lg).visited
    (agn_locus_index_pairwise_test_overlap refr visited locus
      agn_pairwise_compare_locus_add_refr_gene 0 lg).locus
    agn_pairwise_compare_locus_add_pred_gene 0
    (agn_locus_index_pairwise_test_overlap refr visited locus
      agn_pairwise_compare_locus_add_refr_gene 0 lg).logger
  have hmono : ∀ y ∈ visited, y ∈ (agn_locus_index_pairwise_test_overlap pred
      (agn_locus_index_pairwise_test_overlap refr visited locus
        agn_pairwise_compare_locus_add_refr_gene 0 lg).visited
      (agn_locus_index_pairwise_test_overlap refr visited locus
        agn_pairwise_compare_locus_add_refr_gene 0 lg).locus
      agn_pairwise_compare_locus_add_pred_gene 0
      (agn_locus_index_pairwise_test_overlap refr visited locus
        agn_pairwise_compare_locus_add_refr_gene 0 lg).logger).visited := by
    intro y hy
    exact (b1 y).mpr (Or.inl ((a1 y).mpr (Or.inl hy)))
  rw [a2] at hcnt
  rw [b2] at hcnt
  have hpos : 0 < ids1.length + ids2.length := by omega
  have hsplit : ids1 ≠ [] ∨ ids2 ≠ [] := by
    by_contra hc
    push_neg at hc
    rw [hc.1, hc.2] at hpos
    simp at hpos
  rcases hsplit with hne | hne
  · obtain ⟨x, hx⟩ := List.exists_mem_of_ne_nil _ hne
    obtain ⟨hx1, hx2⟩ := a3 x hx
    refine unvisitedGeneCount_lt _ visited _ hmono x ?_ hx2 ?_
    · rw [List.map_append, List.mem_append]
      exact Or.inl hx1
    · exact (b1 x).mpr (Or.inl ((a1 x).mpr (Or.inr hx)))
  · obtain ⟨x, hx⟩ := List.exists_mem_of_ne_nil _ hne
    obtain ⟨hx1, hx2⟩ := b3 x hx
    by_cases hxv : x ∈ visited
    · exact absurd ((a1 x).mpr (Or.inl hxv)) hx2
    · refine unvisitedGeneCount_lt _ visited _ hmono x ?_ hxv ?_
      · rw [List.map_append, List.mem_append]
        exact Or.inr hx1
      · exact (b1 x).mpr (Or.inr hx)

/-- Embeds the `do { ... } while(new_gene_count > 0)` loop in the reference pass
of `agn_locus_index_parse_pairwise`: query the reference index and then the
prediction index; if the logger now holds any error, abort (the C returns
`NULL`); otherwise repeat while the round claimed anything.  Each round totals
the two calls' counters; the model starts each counter at 0, which is the
intent of the C code — the uninitialized read the source actually performs is
the subject of `agn_locus_index_pairwise_test_overlap` theorems. -/
def locusPairwiseExpand (refr pred : GtFeatureIndex) (visited : List Nat)
    (locus : AgnPairwiseCompareLocus) (lg : Nat) :
    Option (List Nat × AgnPairwiseCompareLocus × Nat) :=
  if 0 < (agn_locus_index_pairwise_test_overlap pred
      (agn_locus_index_pairwise_test_overlap refr visited locus
        agn_pairwise_compare_locus_add_refr_gene 0 lg).visited
      (agn_locus_index_pairwise_test_overlap refr visited locus
        agn_pairwise_compare_locus_add_refr_gene 0 lg).locus
      agn_pairwise_compare_locus_add_pred_gene 0
      (agn_locus_index_pairwise_test_overlap refr visited locus
        agn_pairwise_compare_locus_add_refr_gene 0 lg).logger).logger then
    none
  else if h : 0 < (agn_locus_index_pairwise_test_overlap refr visited locus
      agn_pairwise_compare_locus_add_refr_gene 0 lg).count +
      (agn_locus_index_pairwise_test_overlap pred
        (agn_locus_index_pairwise_test_overlap refr visited locus
          agn_pairwise_compare_locus_add_refr_gene 0 lg).visited
        (agn_locus_index_pairwise_test_overlap refr visited locus
          agn_pairwise_compare_locus_add_refr_gene 0 lg).locus
        agn_pairwise_compare_locus_add_pred_gene 0
        (agn_locus_index_pairwise_test_overlap refr visited locus
          agn_pairwise_compare_locus_add_refr_gene 0 lg).logger).count then
    locusPairwiseExpand refr pred
      (agn_locus_index_pairwise_test_overlap pred
        (agn_locus_index_pairwise_test_overlap refr visited locus
          agn_pairwise_compare_locus_add_refr_gene 0 lg).visited
        (agn_locus_index_pairwise_test_overlap refr visited locus
          agn_pairwise_compare_locus_add_refr_gene 0 lg).locus
        agn_pairwise_compare_locus_add_pred_gene 0
        (agn_locus_index_pairwise_test_overlap refr visited locus
          agn_pairwise_compare_locus_add_refr_gene 0 lg).logger).visited
      (agn_locus_index_pairwise_test_overlap pred
        (agn_locus_index_pairwise_test_overlap refr visited locus
          agn_pairwise_compare_locus_add_refr_gene 0 lg).visited
        (agn_locus_index_pairwise_test_overlap refr visited locus
          agn_pairwise_compare_locus_add_refr_gene 0 lg).locus
        agn_pairwise_compare_locus_add_pred_gene 0
        (agn_locus_index_pairwise_test_overlap refr visited locus
          agn_pairwise_compare_locus_add_refr_gene 0 lg).logger).locus
      (agn_locus_index_pairwise_test_overlap pred
        (agn_locus_index_pairwise_test_overlap refr visited locus
          agn_pairwise_compare_locus_add_refr_gene 0 lg).visited
        (agn_locus_index_pairwise_test_overlap refr visited locus
          agn_pairwise_compare_locus_add_refr_gene 0 lg).locus
        agn_pairwise_compare_locus_add_pred_gene 0
        (agn_locus_index_pairwise_test_overlap refr visited locus
          agn_pairwise_compare_locus_add_refr_gene 0 lg).logger).logger
  else
    some ((agn_locus_index_pairwise_test_overlap pred
        (agn_locus_index_pairwise_test_overlap refr visited locus
          agn_pairwise_compare_locus_add_refr_gene 0 lg).visited
        (agn_locus_index_pairwise_test_overlap refr visited locus
          agn_pairwise_compare_locus_add_refr_gene 0 lg).locus
        agn_pairwise_compare_locus_add_pred_gene 0
        (agn_locus_index_pairwise_test_overlap refr visited locus
          agn_pairwise_compare_locus_add_refr_gene 0 lg).logger).visited,
      (agn_locus_index_pairwise_test_overlap pred
        (agn_locus_index_pairwise_test_overlap refr visited locus
          agn_pairwise_compare_locus_add_refr_gene 0 lg).visited
        (agn_locus_index_pairwise_test_overlap refr visited locus
          agn_pairwise_compare_locus_add_refr_gene 0 lg).locus
        agn_pairwise_compare_locus_add_pred_gene 0
        (agn_locus_index_pairwise_test_overlap refr visited locus
          agn_pairwise_compare_locus_add_refr_gene 0 lg).logger).locus,
      (agn_locus_index_pairwise_test_overlap pred
        (agn_locus_index_pairwise_test_overlap refr visited locus
          agn_pairwise_compare_locus_add_refr_gene 0 lg).visited
        (agn_locus_index_pairwise_test_overlap refr visited locus
          agn_pairwise_compare_locus_add_refr_gene 0 lg).locus
        agn_pairwise_compare_locus_add_pred_gene 0
        (agn_locus_index_pairwise_test_overlap refr visited locus
          agn_pairwise_compare_locus_add_refr_gene 0 lg).logger).logger)
termination_by unvisitedGeneCount (refr.features ++ pred.features) visited
decreasing_by
  exact pairwise_round_progress refr pred visited locus lg h

/-- Embeds the reference-seeding pass (first loop) of
`agn_locus_index_parse_pairwise`: every unvisited reference gene is pre-marked
visited, seeds a locus and is expanded against both indexes; an abort in the
expansion aborts the whole pass. -/
def parsePairwiseRefrPass (refr pred : GtFeatureIndex) :
    List GtFeatureNode → List Nat → Nat →
    Option (List AgnPairwiseCompareLocus × List Nat × Nat)
  | [], visited, lg => some ([], visited, lg)
  | g :: rest, visited, lg =>
    if g.fid ∈ visited then parsePairwiseRefrPass refr pred rest visited lg
    else
      match locusPairwiseExpand refr pred (g.fid :: visited)
        (agn_pairwise_compare_locus_add_refr_gene agn_pairwise_compare_locus_new g) lg with
      | none => none
      | some (v, L, lg1) =>
        match parsePairwiseRefrPass refr pred rest v lg1 with
        | none => none
        | some (ls, v2, lg2) => some (L :: ls, v2, lg2)

/-- If a single prediction-side overlap query claims a positive count, the
prediction unvisited measure strictly decreases. -/
theorem pred_round_progress (pred : GtFeatureIndex) (visited : List Nat)
    (locus : AgnPairwiseCompareLocus) (lg : Nat)
    (h : 0 < (agn_locus_index_pairwise_test_overlap pred visited locus
      agn_pairwise_compare_locus_add_pred_gene 0 lg).count) :
    unvisitedGeneCount pred.features
      (agn_locus_index_pairwise_test_overlap pred visited locus
        agn_pairwise_compare_locus_add_pred_gene 0 lg).visited <
      unvisitedGeneCount pred.features visited := by
  obtain ⟨ids, a1, a2, a3, _a4⟩ := agn_locus_index_pairwise_test_overlap_spec pred visited
    locus agn_pairwise_compare_locus_add_pred_gene 0 lg
  rw [a2] at h
  have hne : ids ≠ [] := by
    intro h0; rw [h0] at h; simp at h
  obtain ⟨x, hx⟩ := List.exists_mem_of_ne_nil _ hne
  obtain ⟨hx1, hx2⟩ := a3 x hx
  exact unvisitedGeneCount_lt _ visited _ (fun y hy => (a1 y).mpr (Or.inl hy)) x hx1 hx2
    ((a1 x).mpr (Or.inr hx))

/-- Embeds the `do { ... } while(new_gene_count > 0)` loop in the prediction
pass of `agn_locus_index_parse_pairwise` (one query per round, same
abort-on-logged-error check). -/
def locusPredExpand (pred : GtFeatureIndex) (visited : List Nat)
    (locus : AgnPairwiseCompareLocus) (lg : Nat) :
    Option (List Nat × AgnPairwiseCompareLocus × Nat) :=
  if 0 < (agn_locus_index_pairwise_test_overlap pred visited locus
      agn_pairwise_compare_locus_add_pred_gene 0 lg).logger then
    none
  else if h : 0 < (agn_locus_index_pairwise_test_overlap pred visited locus
      agn_pairwise_compare_locus_add_pred_gene 0 lg).count then
    locusPredExpand pred
      (agn_locus_index_pairwise_test_overlap pred visited locus
        agn_pairwise_compare_locus_add_pred_gene 0 lg).visited
      (agn_locus_index_pairwise_test_overlap pred visited locus
        agn_pairwise_compare_locus_add_pred_gene 0 lg).locus
      (agn_locus_index_pairwise_test_overlap pred visited locus
        agn_pairwise_compare_locus_add_pred_gene 0 lg).logger
  else
    some ((agn_locus_index_pairwise_test_overlap pred visited locus
        agn_pairwise_compare_locus_add_pred_gene 0 lg).visited,
      (agn_locus_index_pairwise_test_overlap pred visited locus
        agn_pairwise_compare_locus_add_pred_gene 0 lg).locus,
      (agn_locus_index_pairwise_test_overlap pred visited locus
        agn_pairwise_compare_locus_add_pred_gene 0 lg).logger)
termination_by unvisitedGeneCount pred.features visited
decreasing_by
  exact pred_round_progress pred visited locus lg h

/-- Embeds the prediction-seeding pass (second loop) of
`agn_locus_index_parse_pairwise`. -/
def parsePairwisePredPass (pred : GtFeatureIndex) :
    List GtFeatureNode → List Nat → Nat →
    Option (List AgnPairwiseCompareLocus × List Nat × Nat)
  | [], visited, lg => some ([], visited, lg)
  | g :: rest, visited, lg =>
    if g.fid ∈ visited then parsePairwisePredPass pred rest visited lg
    else
      match locusPredExpand pred (g.fid :: visited)
        (agn_pairwise_compare_locus_add_pred_gene agn_pairwise_compare_locus_new g) lg with
      | none => none
      | some (v, L, lg1) =>
        match parsePairwisePredPass pred rest v lg1 with
        | none => none
        | some (ls, v2, lg2) => some (L :: ls, v2, lg2)

/-- Embeds `agn_locus_index_parse_pairwise` (AgnLocusIndex.c): seed loci from
reference genes (expanding against both indexes and returning `NULL` as soon as
the logger holds an error), then seed the remaining loci from unclaimed
prediction genes. -/
def agn_locus_index_parse_pairwise (refr pred : GtFeatureIndex) (lg : Nat) :
    Option (List AgnPairwiseCompareLocus) :=
  if refr.serr then none
  else
    match parsePairwiseRefrPass refr pred refr.features [] lg with
    | none => none
    | some (ls1, visited, lg1) =>
      if pred.serr then none
      else
        match parsePairwisePredPass pred pred.features visited lg1 with
        | none => none
        | some (ls2, _, _) => some (ls1 ++ ls2)

/-- Claim C9: the value `agn_locus_index_pairwise_test_overlap` returns is its
uninitialized starting counter (modelled by `c0`) plus the number of newly
claimed genes — the count does not start from zero as intended ( the C local
`new_gene_count` is read uninitialized, contradicting the function's own doc
comment "returns the number of genes assigned to the locus" and its sibling
`agn_locus_index_test_overlap`, which initialises the counter to 0).  The
closed conjunct evaluates the model at a failing input: with non-zero stack
garbage (`c0 = 1`) and an empty feature index the call assigns no gene at all
yet returns 1. -/
theorem agn_locus_index_pairwise_test_overlap_count_uninitialized :
    (∀ (features : GtFeatureIndex) (visited : List Nat)
       (locus : AgnPairwiseCompareLocus)
       (addf : AgnPairwiseCompareLocus → GtFeatureNode → AgnPairwiseCompareLocus)
       (c0 lg : Nat),
      (agn_locus_index_pairwise_test_overlap features visited locus addf c0 lg).count =
        c0 + (agn_locus_index_pairwise_test_overlap features visited locus addf 0 lg).count) ∧
    ((agn_locus_index_pairwise_test_overlap ⟨[], false, false⟩ []
        agn_pairwise_compare_locus_new agn_pairwise_compare_locus_add_refr_gene 1 0).count = 1 ∧
     (agn_locus_index_pairwise_test_overlap ⟨[], false, false⟩ []
        agn_pairwise_compare_locus_new agn_pairwise_compare_locus_add_refr_gene 1 0).locus =
       agn_pairwise_compare_locus_new) := by
  refine ⟨?_, by decide, by decide⟩
  intro features visited locus addf c0 lg
  by_cases hq : features.qerr
  · simp [agn_locus_index_pairwise_test_overlap, hq]
  · obtain ⟨_, _, h3⟩ := pclaimGenes_count_offset addf
      ((features.features.filter fun fn => gt_range_overlap fn.range
        ⟨agn_pairwise_compare_locus_get_start locus,
         agn_pairwise_compare_locus_get_end locus⟩).reverse) visited locus c0
    simpa [agn_locus_index_pairwise_test_overlap, hq] using h3

/-- Counterexample to C6 as stated: with an erroring reference interval index,
the pairwise clusterer does not continue with zero results — it returns `NULL`
for the whole sequence instead of a locus collection. -/
theorem pairwise_parse_error_returns_no_loci :
    (⟨[⟨7, ⟨1, 5⟩, true⟩], true, false⟩ : GtFeatureIndex).qerr = true ∧
    agn_locus_index_parse_pairwise ⟨[⟨7, ⟨1, 5⟩, true⟩], true, false⟩
      ⟨[], false, false⟩ 0 = none := by
  refine ⟨rfl, ?_⟩
  have hexp : locusPairwiseExpand ⟨[⟨7, ⟨1, 5⟩, true⟩], true, false⟩ ⟨[], false, false⟩
      [7] (agn_pairwise_compare_locus_add_refr_gene agn_pairwise_compare_locus_new
        ⟨7, ⟨1, 5⟩, true⟩) 0 = none := by
    rw [locusPairwiseExpand]
    simp [agn_locus_index_pairwise_test_overlap, pclaimGenes]
  simp only [agn_locus_index_parse_pairwise, parsePairwiseRefrPass]
  simp [hexp]

/-- Claim C6 (amended): in single-source clustering a range-query error is
logged and treated as zero results for that iteration (state untouched, count
0), and per-sequence clustering still returns a locus collection; in pairwise
clustering, however, once a range-query error has been logged the whole
sequence's clustering aborts and returns `NULL`. -/
theorem locus_index_query_error_semantics :
    (∀ (idx : GtFeatureIndex) (visited : List Nat) (locus : AgnLocus) (lg : Nat),
      idx.qerr = true →
      agn_locus_index_test_overlap idx visited locus lg = ⟨visited, locus, 0, lg + 1⟩) ∧
    (∀ (fs : List GtFeatureNode) (lg : Nat),
      ((agn_locus_index_parse ⟨fs, true, false⟩ lg).1).isSome = true) ∧
    (∀ (refr pred : GtFeatureIndex) (g : GtFeatureNode) (rest : List GtFeatureNode)
       (lg : Nat),
      refr.features = g :: rest → refr.qerr = true → refr.serr = false →
      agn_locus_index_parse_pairwise refr pred lg = none) := by
  refine ⟨?_, ?_, ?_⟩
  · intro idx visited locus lg hq
    simp [agn_locus_index_test_overlap, hq]
  · intro fs lg
    simp [agn_locus_index_parse]
  · intro refr pred g rest lg hf hq hs
    have h1 : (agn_locus_index_pairwise_test_overlap refr [g.fid]
        (agn_pairwise_compare_locus_add_refr_gene agn_pairwise_compare_locus_new g)
        agn_pairwise_compare_locus_add_refr_gene 0 lg).logger = lg + 1 := by
      simp [agn_locus_index_pairwise_test_overlap, hq]
    have hexp : locusPairwiseExpand refr pred [g.fid]
        (agn_pairwise_compare_locus_add_refr_gene agn_pairwise_compare_locus_new g)
        lg = none := by
      rw [locusPairwiseExpand]
      obtain ⟨ids, _, _, _, a4⟩ := agn_locus_index_pairwise_test_overlap_spec pred
        (agn_locus_index_pairwise_test_overlap refr [g.fid]
          (agn_pairwise_compare_locus_add_refr_gene agn_pairwise_compare_locus_new g)
          agn_pairwise_compare_locus_add_refr_gene 0 lg).visited
        (agn_locus_index_pairwise_test_overlap refr [g.fid]
          (agn_pairwise_compare_locus_add_refr_gene agn_pairwise_compare_locus_new g)
          agn_pairwise_compare_locus_add_refr_gene 0 lg).locus
        agn_pairwise_compare_locus_add_pred_gene 0
        (agn_locus_index_pairwise_test_overlap refr [g.fid]
          (agn_pairwise_compare_locus_add_refr_gene agn_pairwise_compare_locus_new g)
          agn_pairwise_compare_locus_add_refr_gene 0 lg).logger
      rw [if_pos]
      rw [a4]
      split
      · omega
      · rw [h1]; omega
    rw [agn_locus_index_parse_pairwise, if_neg (by simp [hs]), hf]
    simp only [parsePairwiseRefrPass, List.not_mem_nil, if_neg]
    simp [hexp]

/-- Witness for C6's amended statement, all hypotheses discharged at concrete
inputs. -/
theorem locus_index_query_error_semantics_witness :
    agn_locus_index_test_overlap ⟨[], true, false⟩ [] agn_locus_new 0 =
      ⟨[], agn_locus_new, 0, 1⟩ ∧
    ((agn_locus_index_parse ⟨[chr1_gene1], true, false⟩ 0).1).isSome = true ∧
    agn_locus_index_parse_pairwise ⟨[chr1_gene1], true, false⟩ ⟨[], false, false⟩ 0 =
      none :=
  ⟨locus_index_query_error_semantics.1 ⟨[], true, false⟩ [] agn_locus_new 0 rfl,
   locus_index_query_error_semantics.2.1 [chr1_gene1] 0,
   locus_index_query_error_semantics.2.2 ⟨[chr1_gene1], true, false⟩ ⟨[], false, false⟩
     chr1_gene1 [] 0 rfl rfl rfl⟩

/-- The in-memory genometools feature index as `AgnLocusStream` consumes it:
an association of sequence ids to their transcript feature lists.
`gt_feature_index_get_seqids` returns the keys, `gt_feature_index_has_seqid`
tests key membership and `gt_feature_index_get_features_for_seqid` looks a key
up. -/
structure GtFeatureIndexMem where
  entries : List (String × List GtFeatureNode)
deriving DecidableEq, Repr

/-- Embeds `gt_feature_index_get_seqids` for the in-memory index. -/
def gt_feature_index_get_seqids (idx : GtFeatureIndexMem) : List String :=
  idx.entries.map Prod.fst

/-- Embeds `gt_feature_index_has_seqid` for the in-memory index. -/
def gt_feature_index_has_seqid (idx : GtFeatureIndexMem) (s : String) : Bool :=
  decide (s ∈ idx.entries.map Prod.fst)

/-- Embeds `gt_feature_index_get_features_for_seqid` for the in-memory index. -/
def gt_feature_index_get_features_for_seqid (idx : GtFeatureIndexMem) (s : String) :
    List GtFeatureNode :=
  match idx.entries.find? (fun e => e.1 == s) with
  | some e => e.2
  | none => []

/-- A locus as `AgnLocusStream` builds it: sequence id, range, transcripts. -/
structure StreamLocus where
  seqid : String
  range : GtRange
  transcripts : List GtFeatureNode
deriving DecidableEq, Repr

/-- Modelled from the spec: `agn_locus_add_transcript` (AgnLocus.c is not among
the provided sources) — appends the transcript and extends the locus range to
the hull of the member ranges, leaving the sequence id unchanged. -/
def agn_locus_add_transcript (locus : StreamLocus) (t : GtFeatureNode) : StreamLocus :=
  { seqid := locus.seqid
    range := if locus.transcripts.isEmpty then t.range
             else gt_range_join locus.range t.range
    transcripts := locus.transcripts ++ [t] }

/-- The claim loop of `locus_stream_query_overlap`: pop each fetched transcript
and claim it when unvisited (no type check: the index holds only transcripts). -/
def sclaimTranscripts : List GtFeatureNode → List Nat → StreamLocus → Nat →
    List Nat × StreamLocus × Nat
  | [], visited, locus, cnt => (visited, locus, cnt)
  | fn :: rest, visited, locus, cnt =>
    if fn.fid ∈ visited then sclaimTranscripts rest visited locus cnt
    else sclaimTranscripts rest (fn.fid :: visited) (agn_locus_add_transcript locus fn)
      (cnt + 1)

/-- Embeds `locus_stream_query_overlap` (AgnLocusStream.c): the function first
asserts `gt_feature_index_has_seqid(stream->transcripts, seqid)` — modelled as
returning `none` when the assertion would fire — and then claims every
unvisited transcript overlapping the locus range. -/
def locus_stream_query_overlap (transcripts : GtFeatureIndexMem) (locus : StreamLocus)
    (visited : List Nat) : Option (List Nat × StreamLocus × Nat) :=
  if gt_feature_index_has_seqid transcripts locus.seqid then
    some (sclaimTranscripts
      (((gt_feature_index_get_features_for_seqid transcripts locus.seqid).filter
        fun fn => gt_range_overlap fn.range locus.range).reverse)
      visited locus 0)
  else
    none

/-- Behavioural facts about the stream claim loop needed for termination and
safety: the sequence id is preserved, the visited set grows monotonically, and
a positive count means some identifier of the processed list was newly
visited. -/
theorem sclaimTranscripts_spec (l : List GtFeatureNode) :
    ∀ (visited : List Nat) (locus : StreamLocus) (cnt : Nat),
    (sclaimTranscripts l visited locus cnt).2.1.seqid = locus.seqid ∧
    (∀ y ∈ visited, y ∈ (sclaimTranscripts l visited locus cnt).1) ∧
    ((sclaimTranscripts l visited locus cnt).2.2 > cnt →
      ∃ x, x ∈ l.map GtFeatureNode.fid ∧ x ∉ visited ∧
        x ∈ (sclaimTranscripts l visited locus cnt).1) := by
  induction l with
  | nil =>
    intro visited locus cnt
    refine ⟨rfl, fun y hy => hy, ?_⟩
    intro h
    simp [sclaimTranscripts] at h
  | cons fn rest ih =>
    intro visited locus cnt
    by_cases hvv : fn.fid ∈ visited
    · have hstep : sclaimTranscripts (fn :: rest) visited locus cnt =
          sclaimTranscripts rest visited locus cnt := by
        simp [sclaimTranscripts, hvv]
      obtain ⟨i1, i2, i3⟩ := ih visited locus cnt
      rw [hstep]
      refine ⟨i1, i2, ?_⟩
      intro h
      obtain ⟨x, hx1, hx2, hx3⟩ := i3 h
      exact ⟨x, by simp at hx1 ⊢; tauto, hx2, hx3⟩
    · have hstep : sclaimTranscripts (fn :: rest) visited locus cnt =
          sclaimTranscripts rest (fn.fid :: visited)
            (agn_locus_add_transcript locus fn) (cnt + 1) := by
        simp [sclaimTranscripts, hvv]
      obtain ⟨i1, i2, i3⟩ := ih (fn.fid :: visited) (agn_locus_add_transcript locus fn)
        (cnt + 1)
      rw [hstep]
      refine ⟨by rw [i1]; rfl, ?_, ?_⟩
      · intro y hy
        exact i2 y (List.mem_cons_of_mem _ hy)
      · intro _
        exact ⟨fn.fid, by simp, hvv, i2 fn.fid (List.mem_cons_self _ _)⟩

/-- Termination measure for the stream expansion. -/
def unvisitedTransCount (transcripts : GtFeatureIndexMem) (s : String)
    (visited : List Nat) : Nat :=
  unvisitedGeneCount (gt_feature_index_get_features_for_seqid transcripts s) visited

/-- A successful stream overlap query preserves the sequence id. -/
theorem locus_stream_query_overlap_seqid (transcripts : GtFeatureIndexMem)
    (locus : StreamLocus) (visited : List Nat) (r : List Nat × StreamLocus × Nat)
    (h : locus_stream_query_overlap transcripts locus visited = some r) :
    r.2.1.seqid = locus.seqid := by
  by_cases hs : gt_feature_index_has_seqid transcripts locus.seqid
  · rw [locus_stream_query_overlap, if_pos hs] at h
    obtain ⟨i1, _, _⟩ := sclaimTranscripts_spec
      (((gt_feature_index_get_features_for_seqid transcripts locus.seqid).filter
        fun fn => gt_range_overlap fn.range locus.range).reverse) visited locus 0
    rw [Option.some.inj h] at i1
    exact i1
  · rw [locus_stream_query_overlap, if_neg hs] at h
    cases h

/-- A successful stream overlap query with a positive count strictly shrinks
the per-sequence unvisited measure. -/
theorem locus_stream_query_overlap_progress (transcripts : GtFeatureIndexMem)
    (locus : StreamLocus) (visited : List Nat) (r : List Nat × StreamLocus × Nat)
    (h : locus_stream_query_overlap transcripts locus visited = some r)
    (hc : 0 < r.2.2) :
    unvisitedTransCount transcripts locus.seqid r.1 <
      unvisitedTransCount transcripts locus.seqid visited := by
  by_cases hs : gt_feature_index_has_seqid transcripts locus.seqid
  · rw [locus_stream_query_overlap, if_pos hs] at h
    obtain ⟨_, i2, i3⟩ := sclaimTranscripts_spec
      (((gt_feature_index_get_features_for_seqid transcripts locus.seqid).filter
        fun fn => gt_range_overlap fn.range locus.range).reverse) visited locus 0
    rw [Option.some.inj h] at i2 i3
    obtain ⟨x, hx1, hx2, hx3⟩ := i3 hc
    obtain ⟨fn, hfn, hfx⟩ := List.mem_map.mp hx1
    refine unvisitedGeneCount_lt _ visited _ i2 x ?_ hx2 hx3
    exact List.mem_map.mpr ⟨fn,
      List.mem_of_mem_filter (List.mem_reverse.mp hfn), hfx⟩
  · rw [locus_stream_query_overlap, if_neg hs] at h
    cases h

/-- Embeds the `do { ... } while(new_trans_count > 0)` loop of
`locus_stream_parse`; `none` propagates an assertion failure inside
`locus_stream_query_overlap`. -/
def locusStreamExpand (transcripts : GtFeatureIndexMem) (visited : List Nat)
    (locus : StreamLocus) : Option (List Nat × StreamLocus) :=
  match h : locus_stream_query_overlap transcripts locus visited with
  | none => none
  | some r =>
    if hc : 0 < r.2.2 then locusStreamExpand transcripts r.1 r.2.1
    else some (r.1, r.2.1)
termination_by unvisitedTransCount transcripts locus.seqid visited
decreasing_by
  rw [locus_stream_query_overlap_seqid transcripts locus visited r h]
  exact locus_stream_query_overlap_progress transcripts locus visited r h hc

/-- Embeds the per-sequence transcript loop of `locus_stream_parse`: each
unvisited transcript is pre-marked visited, seeds a locus with the sequence's
id, and is expanded to its fixed point. -/
def locus_stream_parse_seq (transcripts : GtFeatureIndexMem) (seqid : String) :
    List GtFeatureNode → List Nat → Option (List StreamLocus)
  | [], _ => some []
  | t :: rest, visited =>
    if t.fid ∈ visited then locus_stream_parse_seq transcripts seqid rest visited
    else
      match locusStreamExpand transcripts (t.fid :: visited)
        (agn_locus_add_transcript ⟨seqid, ⟨0, 0⟩, []⟩ t) with
      | none => none
      | some (v, L) =>
        match locus_stream_parse_seq transcripts seqid rest v with
        | none => none
        | some ls => some (L :: ls)

/-- Embeds the sequence loop of `locus_stream_parse`. -/
def locus_stream_parse_go (transcripts : GtFeatureIndexMem) :
    List String → Option (List StreamLocus)
  | [] => some []
  | s :: rest =>
    match locus_stream_parse_seq transcripts s
      (gt_feature_index_get_features_for_seqid transcripts s) [] with
    | none => none
    | some ls =>
      match locus_stream_parse_go transcripts rest with
      | none => none
      | some ls' => some (ls ++ ls')

/-- Embeds `locus_stream_parse` (AgnLocusStream.c): cluster the transcripts of
every sequence id of the stream's transcript index. -/
def locus_stream_parse (transcripts : GtFeatureIndexMem) : Option (List StreamLocus) :=
  locus_stream_parse_go transcripts (gt_feature_index_get_seqids transcripts)

/-- When the locus's sequence id is known to the transcript index, the stream
expansion never hits the assertion and preserves the sequence id. -/
theorem locusStreamExpand_isSome (transcripts : GtFeatureIndexMem) :
    ∀ (visited : List Nat) (locus : StreamLocus),
    gt_feature_index_has_seqid transcripts locus.seqid = true →
    (locusStreamExpand transcripts visited locus).isSome = true ∧
    (∀ v L, locusStreamExpand transcripts visited locus = some (v, L) →
      L.seqid = locus.seqid) := by
  intro visited locus
  induction visited, locus using locusStreamExpand.induct transcripts with
  | case1 visited locus h =>
    intro hs
    rw [locus_stream_query_overlap, if_pos hs] at h
    cases h
  | case2 visited locus r h hc ih =>
    intro hs
    have hseq := locus_stream_query_overlap_seqid transcripts locus visited r h
    obtain ⟨ih1, ih2⟩ := ih (by rw [hseq]; exact hs)
    have hstep : locusStreamExpand transcripts visited locus =
        locusStreamExpand transcripts r.1 r.2.1 := by
      rw [locusStreamExpand]
      split
      · rename_i heq
        rw [heq] at h
        cases h
      · rename_i r' heq
        rw [heq] at h
        rw [Option.some.inj h]
        rw [dif_pos (Option.some.inj h ▸ hc)]
    rw [hstep]
    refine ⟨ih1, ?_⟩
    intro v L hL
    rw [ih2 v L hL]
    exact hseq
  | case3 visited locus r h hc =>
    intro _
    have hseq := locus_stream_query_overlap_seqid transcripts locus visited r h
    have hstep : locusStreamExpand transcripts visited locus = some (r.1, r.2.1) := by
      rw [locusStreamExpand]
      split
      · rename_i heq
        rw [heq] at h
        cases h
      · rename_i r' heq
        rw [heq] at h
        rw [Option.some.inj h]
        rw [dif_neg (Option.some.inj h ▸ hc)]
    rw [hstep]
    refine ⟨rfl, ?_⟩
    intro v L hL
    rw [← (Prod.mk.injEq _ _ _ _).mp (Option.some.inj hL) |>.2]
    exact hseq

/-- The per-sequence loop never hits the assertion when its sequence id is in
the index, and every locus it returns carries that id. -/
theorem locus_stream_parse_seq_isSome (transcripts : GtFeatureIndexMem) (seqid : String)
    (hs : gt_feature_index_has_seqid transcripts seqid = true) :
    ∀ (l : List GtFeatureNode) (visited : List Nat),
    (locus_stream_parse_seq transcripts seqid l visited).isSome = true ∧
    (∀ ls, locus_stream_parse_seq transcripts seqid l visited = some ls →
      ∀ L ∈ ls, L.seqid = seqid) := by
  intro l
  induction l with
  | nil =>
    intro visited
    refine ⟨rfl, ?_⟩
    intro ls hls L hL
    rw [show ls = [] from (Option.some.inj hls).symm] at hL
    cases hL
  | cons t rest ih =>
    intro visited
    by_cases hvv : t.fid ∈ visited
    · have hstep : locus_stream_parse_seq transcripts seqid (t :: rest) visited =
          locus_stream_parse_seq transcripts seqid rest visited := by
        simp [locus_stream_parse_seq, hvv]
      rw [hstep]
      exact ih visited
    · have hseed : (agn_locus_add_transcript ⟨seqid, ⟨0, 0⟩, []⟩ t).seqid = seqid := rfl
      obtain ⟨e1, e2⟩ := locusStreamExpand_isSome transcripts (t.fid :: visited)
        (agn_locus_add_transcript ⟨seqid, ⟨0, 0⟩, []⟩ t) (by rw [hseed]; exact hs)
      obtain ⟨p, hp⟩ := Option.isSome_iff_exists.mp e1
      obtain ⟨v, L⟩ := p
      have hLs : L.seqid = seqid := (e2 v L hp).trans hseed
      obtain ⟨i1, i2⟩ := ih v
      obtain ⟨ls', hls'⟩ := Option.isSome_iff_exists.mp i1
      have hstep : locus_stream_parse_seq transcripts seqid (t :: rest) visited =
          some (L :: ls') := by
        simp only [locus_stream_parse_seq, if_neg hvv, hp, hls']
      rw [hstep]
      refine ⟨rfl, ?_⟩
      intro ls hls L' hL'
      rw [show ls = L :: ls' from (Option.some.inj hls).symm] at hL'
      rcases List.mem_cons.mp hL' with rfl | hL''
      · exact hLs
      · exact i2 ls' hls' L' hL''

/-- Claim C10: in single-source stream construction every locus's sequence id
is present in the stream's transcript index, so the `has_seqid` assertion in
`locus_stream_query_overlap` holds for every overlap query issued: the parse
never fails the assertion (`none` models an assertion failure), and every
returned locus carries a sequence id of the index. -/
theorem locus_stream_parse_assert_safe :
    ∀ transcripts : GtFeatureIndexMem,
      (locus_stream_parse transcripts).isSome = true ∧
      (∀ ls, locus_stream_parse transcripts = some ls →
        ∀ L ∈ ls, gt_feature_index_has_seqid transcripts L.seqid = true) := by
  intro transcripts
  have hgo : ∀ ss : List String, (∀ s ∈ ss, gt_feature_index_has_seqid transcripts s = true) →
      (locus_stream_parse_go transcripts ss).isSome = true ∧
      (∀ ls, locus_stream_parse_go transcripts ss = some ls →
        ∀ L ∈ ls, gt_feature_index_has_seqid transcripts L.seqid = true) := by
    intro ss
    induction ss with
    | nil =>
      intro _
      refine ⟨rfl, ?_⟩
      intro ls hls L hL
      rw [show ls = [] from (Option.some.inj hls).symm] at hL
      cases hL
    | cons s rest ih =>
      intro hall
      have hs := hall s (List.mem_cons_self _ _)
      obtain ⟨i1, i2⟩ := locus_stream_parse_seq_isSome transcripts s hs
        (gt_feature_index_get_features_for_seqid transcripts s) []
      obtain ⟨ls1, hls1⟩ := Option.isSome_iff_exists.mp i1
      obtain ⟨j1, j2⟩ := ih (fun x hx => hall x (List.mem_cons_of_mem _ hx))
      obtain ⟨ls2, hls2⟩ := Option.isSome_iff_exists.mp j1
      have hstep : locus_stream_parse_go transcripts (s :: rest) = some (ls1 ++ ls2) := by
        simp only [locus_stream_parse_go, hls1, hls2]
      rw [hstep]
      refine ⟨rfl, ?_⟩
      intro ls hls L hL
      rw [show ls = ls1 ++ ls2 from (Option.some.inj hls).symm] at hL
      rcases List.mem_append.mp hL with h' | h'
      · rw [i2 ls1 hls1 L h']
        exact hs
      · exact j2 ls2 hls2 L h'
  refine hgo (gt_feature_index_get_seqids transcripts) ?_
  intro s hsm
  rw [gt_feature_index_has_seqid]
  exact decide_eq_true hsm

/-- Classification codes from `AgnCliquePair.h`. -/
def PE_CLIQUE_PAIR_PERFECT_MATCH : Nat := 0

/-- Classification code from `AgnCliquePair.h`. -/
def PE_CLIQUE_PAIR_MISLABELED : Nat := 1

/-- Classification code from `AgnCliquePair.h`. -/
def PE_CLIQUE_PAIR_CDS_MATCH : Nat := 2

/-- Classification code from `AgnCliquePair.h`. -/
def PE_CLIQUE_PAIR_EXON_MATCH : Nat := 3

/-- Classification code from `AgnCliquePair.h`. -/
def PE_CLIQUE_PAIR_UTR_MATCH : Nat := 4

/-- Classification code from `AgnCliquePair.h`. -/
def PE_CLIQUE_PAIR_NON_MATCH : Nat := 5

/-- One structural-match record (`AgnCompStatsBinary`): counts of reference
units matched (`correct`), reference units unmatched (`missing`) and
prediction units unmatched (`wrong`). -/
structure AgnCompStatsBinary where
  correct : Nat
  missing : Nat
  wrong : Nat
deriving DecidableEq, Repr

/-- A structural comparison is perfect when nothing is missing and nothing is
wrong (`missing == 0 && wrong == 0`). -/
def statsPerfect (s : AgnCompStatsBinary) : Bool :=
  (s.missing == 0) && (s.wrong == 0)

/-- The comparison statistics of a clique pair as the classifier and the
reports consume them: the three structural records, the overall
nucleotide-match tally (`overall_matches` / `overall_length`, whose quotient is
the overall identity), the perfect-match `tolerance`, and whether the only
structural difference is a swapped 5-prime/3-prime UTR orientation (feeding the
MISLABELED rule). -/
structure AgnComparisonStats where
  cds_struc_stats : AgnCompStatsBinary
  exon_struc_stats : AgnCompStatsBinary
  utr_struc_stats : AgnCompStatsBinary
  overall_matches : Nat
  overall_length : Nat
  tolerance : ℚ
  utr_swapped : Bool
deriving DecidableEq, Repr

/-- Overall nucleotide identity: total matching positions over total length
(the C computes this `double` quotient; it is exact at the inputs compared
here). -/
def overallIdentity (s : AgnComparisonStats) : ℚ :=
  (s.overall_matches : ℚ) / (s.overall_length : ℚ)

/-- Modelled from the spec: `agn_clique_pair_classify` (AgnCliquePair.c is not
among the provided sources; `AgnCliquePair.h` declares it together with the
codes above).  Priority rules of the spec, first match wins: PERFECT_MATCH when
CDS, exon and UTR structures are each perfect and the overall identity is
within `tolerance` of 1.0 (the same `fabs(identity - 1.0) < tolerance` test the
in-source reports use); MISLABELED when all structure except a swapped UTR
orientation matches; then CDS_MATCH, EXON_MATCH, UTR_MATCH, NON_MATCH. -/
def agn_clique_pair_classify (s : AgnComparisonStats) : Nat :=
  if statsPerfect s.cds_struc_stats && statsPerfect s.exon_struc_stats &&
      statsPerfect s.utr_struc_stats && decide (|overallIdentity s - 1| < s.tolerance) then
    PE_CLIQUE_PAIR_PERFECT_MATCH
  else if statsPerfect s.cds_struc_stats && statsPerfect s.exon_struc_stats &&
      s.utr_swapped then
    PE_CLIQUE_PAIR_MISLABELED
  else if statsPerfect s.cds_struc_stats then
    PE_CLIQUE_PAIR_CDS_MATCH
  else if statsPerfect s.exon_struc_stats then
    PE_CLIQUE_PAIR_EXON_MATCH
  else if statsPerfect s.utr_struc_stats then
    PE_CLIQUE_PAIR_UTR_MATCH
  else
    PE_CLIQUE_PAIR_NON_MATCH

/-- The two shapes the per-pair nucleotide report can take. -/
inductive NucReportLine where
  | perfect_match_message
  | nucleotide_table
deriving DecidableEq, Repr

/-- Embeds `locus_print_nucleotide_report` (AgnCompareTextReportVisitor.c):
compute `identity = overall_matches / overall_length` and print the
"Gene structures match perfectly!" message when
`fabs(identity - 1.0) < tolerance`, else the nucleotide statistics table. -/
def locus_print_nucleotide_report (pairstats : AgnComparisonStats) : List NucReportLine :=
  if |overallIdentity pairstats - 1| < pairstats.tolerance then
    [NucReportLine.perfect_match_message]
  else
    [NucReportLine.nucleotide_table]

/-- Counterexample to C4 as stated: a pair whose CDS/exon/UTR structural stats
are all perfect and whose overall identity equals exactly 1 − tolerance (so
identity ≥ 1 − tolerance holds) is NOT classified PERFECT_MATCH and the report
does not print the perfect-match message, because the code's test is the strict
`fabs(identity - 1.0) < tolerance`.  Identity 3/4 with tolerance 1/4 is exact
in binary floating point, so the model's rationals mirror the C doubles. -/
theorem classify_boundary_identity_not_perfect :
    (statsPerfect (AgnCompStatsBinary.mk 2 0 0) = true ∧
      overallIdentity (AgnComparisonStats.mk ⟨2, 0, 0⟩ ⟨2, 0, 0⟩ ⟨2, 0, 0⟩ 3 4 (1/4) false) =
        1 - (1/4 : ℚ)) ∧
    agn_clique_pair_classify
      (AgnComparisonStats.mk ⟨2, 0, 0⟩ ⟨2, 0, 0⟩ ⟨2, 0, 0⟩ 3 4 (1/4) false) =
      PE_CLIQUE_PAIR_CDS_MATCH ∧
    locus_print_nucleotide_report
      (AgnComparisonStats.mk ⟨2, 0, 0⟩ ⟨2, 0, 0⟩ ⟨2, 0, 0⟩ 3 4 (1/4) false) =
      [NucReportLine.nucleotide_table] := by
  have hni : ¬ (|overallIdentity
      (AgnComparisonStats.mk ⟨2, 0, 0⟩ ⟨2, 0, 0⟩ ⟨2, 0, 0⟩ 3 4 (1/4) false) - 1| <
      (AgnComparisonStats.mk ⟨2, 0, 0⟩ ⟨2, 0, 0⟩ ⟨2, 0, 0⟩ 3 4 (1/4) false).tolerance) := by
    rw [overallIdentity]
    norm_num [abs_lt]
  refine ⟨⟨rfl, ?_⟩, ?_, ?_⟩
  · rw [overallIdentity]
    norm_num
  · rw [agn_clique_pair_classify,
      if_neg (fun hc => hni (of_decide_eq_true ((Bool.and_eq_true _ _).mp hc).2)),
      if_neg (by simp), if_pos (by rfl)]
  · rw [locus_print_nucleotide_report, if_neg hni]

/-- Claim C4 (amended): if the CDS, exon and UTR structural statistics are each
perfect and the overall identity is strictly within `tolerance` of 1
(`|identity − 1| < tolerance`, i.e. identity > 1 − tolerance, not merely ≥),
the pair is classified PERFECT_MATCH; and the per-pair report prints the
perfect-match message exactly under that strict identity condition. -/
theorem clique_pair_perfect_match_classification :
    (∀ s : AgnComparisonStats,
      s.cds_struc_stats.missing = 0 → s.cds_struc_stats.wrong = 0 →
      s.exon_struc_stats.missing = 0 → s.exon_struc_stats.wrong = 0 →
      s.utr_struc_stats.missing = 0 → s.utr_struc_stats.wrong = 0 →
      |overallIdentity s - 1| < s.tolerance →
      agn_clique_pair_classify s = PE_CLIQUE_PAIR_PERFECT_MATCH ∧
      locus_print_nucleotide_report s = [NucReportLine.perfect_match_message]) ∧
    (∀ s : AgnComparisonStats,
      locus_print_nucleotide_report s = [NucReportLine.perfect_match_message] ↔
      |overallIdentity s - 1| < s.tolerance) := by
  constructor
  · intro s h1 h2 h3 h4 h5 h6 h7
    have hcds : statsPerfect s.cds_struc_stats = true := by
      rw [statsPerfect, h1, h2]; rfl
    have hexon : statsPerfect s.exon_struc_stats = true := by
      rw [statsPerfect, h3, h4]; rfl
    have hutr : statsPerfect s.utr_struc_stats = true := by
      rw [statsPerfect, h5, h6]; rfl
    constructor
    · rw [agn_clique_pair_classify, if_pos]
      rw [hcds, hexon, hutr]
      simpa using h7
    · rw [locus_print_nucleotide_report, if_pos h7]
  · intro s
    constructor
    · intro h
      by_contra hc
      rw [locus_print_nucleotide_report, if_neg hc] at h
      cases h
    · intro h
      rw [locus_print_nucleotide_report, if_pos h]

/-- Witness for C4's amended statement at a concrete perfect pair. -/
theorem clique_pair_perfect_match_classification_witness :
    agn_clique_pair_classify
      (AgnComparisonStats.mk ⟨2, 0, 0⟩ ⟨2, 0, 0⟩ ⟨2, 0, 0⟩ 100 100 (1/100) false) =
      PE_CLIQUE_PAIR_PERFECT_MATCH ∧
    locus_print_nucleotide_report
      (AgnComparisonStats.mk ⟨2, 0, 0⟩ ⟨2, 0, 0⟩ ⟨2, 0, 0⟩ 100 100 (1/100) false) =
      [NucReportLine.perfect_match_message] :=
  clique_pair_perfect_match_classification.1
    (AgnComparisonStats.mk ⟨2, 0, 0⟩ ⟨2, 0, 0⟩ ⟨2, 0, 0⟩ 100 100 (1/100) false)
    rfl rfl rfl rfl rfl rfl
    (by rw [overallIdentity]; norm_num)

/-- A transcript clique (`AgnTranscriptClique`): a clique identity (standing
for its address) and its transcript list. -/
structure AgnTranscriptClique where
  cid : Nat
  transcripts : List Nat
deriving DecidableEq, Repr

/-- A clique pair (`AgnCliquePair`): a reference clique, a prediction clique
and the computed comparison statistics. -/
structure AgnCliquePair where
  refr_clique : AgnTranscriptClique
  pred_clique : AgnTranscriptClique
  stats : AgnComparisonStats
deriving DecidableEq, Repr

/-- Embeds `agn_clique_pair_needs_comparison` (declared in `AgnCliquePair.h`:
the pair needs comparison iff there are both reference and prediction
transcripts). -/
def agn_clique_pair_needs_comparison (p : AgnCliquePair) : Bool :=
  !p.refr_clique.transcripts.isEmpty && !p.pred_clique.transcripts.isEmpty

/-- Embeds `agn_clique_pair_is_simple` (declared in `AgnCliquePair.h`: exactly
one reference transcript and one prediction transcript). -/
def agn_clique_pair_is_simple (p : AgnCliquePair) : Bool :=
  (p.refr_clique.transcripts.length == 1) && (p.pred_clique.transcripts.length == 1)

/-- Modelled from the spec: the §4.3 total order used by
`agn_clique_pair_compare` (AgnCliquePair.c is not among the provided sources):
overall identity descending, ties broken by structural correctness (CDS, then
exon, then UTR) descending, then by total transcript count descending.
`pairSortsBefore p q` holds when `p` sorts no later than `q`. -/
def pairSortsBefore (p q : AgnCliquePair) : Bool :=
  if overallIdentity p.stats ≠ overallIdentity q.stats then
    decide (overallIdentity q.stats < overallIdentity p.stats)
  else if p.stats.cds_struc_stats.correct ≠ q.stats.cds_struc_stats.correct then
    decide (q.stats.cds_struc_stats.correct < p.stats.cds_struc_stats.correct)
  else if p.stats.exon_struc_stats.correct ≠ q.stats.exon_struc_stats.correct then
    decide (q.stats.exon_struc_stats.correct < p.stats.exon_struc_stats.correct)
  else if p.stats.utr_struc_stats.correct ≠ q.stats.utr_struc_stats.correct then
    decide (q.stats.utr_struc_stats.correct < p.stats.utr_struc_stats.correct)
  else
    decide (q.refr_clique.transcripts.length + q.pred_clique.transcripts.length ≤
      p.refr_clique.transcripts.length + p.pred_clique.transcripts.length)

/-- The greedy acceptance loop of the pair selector: walk the sorted candidate
list, accept a pair iff neither of its cliques has been claimed, and claim the
cliques of every accepted pair. -/
def findBestPairsGo : List AgnCliquePair → List Nat → List AgnCliquePair
  | [], _ => []
  | p :: rest, used =>
    if p.refr_clique.cid ∈ used ∨ p.pred_clique.cid ∈ used then
      findBestPairsGo rest used
    else
      p :: findBestPairsGo rest (p.refr_clique.cid :: p.pred_clique.cid :: used)

/-- Modelled from the spec: `agn_pairwise_compare_locus_find_best_pairs`
(AgnPairwiseCompareLocus.c is not among the provided sources; PeReports.c is
its caller): sort all candidate clique pairs best first by the §4.3 order, then
greedily accept a pair iff neither of its two cliques has already been claimed
by a previously accepted pair. -/
def agn_pairwise_compare_locus_find_best_pairs (pairs : List AgnCliquePair) :
    List AgnCliquePair :=
  findBestPairsGo (pairs.insertionSort fun p q => pairSortsBefore p q = true) []

/-- Every pair the greedy loop selects comes from its input and had both clique
ids unclaimed at selection time; distinct selected pairs never share a clique
id. -/
theorem findBestPairsGo_spec : ∀ (l : List AgnCliquePair) (used : List Nat),
    (∀ p ∈ findBestPairsGo l used, p ∈ l ∧ p.refr_clique.cid ∉ used ∧
      p.pred_clique.cid ∉ used) ∧
    List.Pairwise (fun p q =>
      p.refr_clique.cid ≠ q.refr_clique.cid ∧ p.refr_clique.cid ≠ q.pred_clique.cid ∧
      p.pred_clique.cid ≠ q.refr_clique.cid ∧ p.pred_clique.cid ≠ q.pred_clique.cid)
      (findBestPairsGo l used) := by
  intro l
  induction l with
  | nil =>
    intro used
    constructor
    · intro p hp
      cases hp
    · exact List.Pairwise.nil
  | cons p rest ih =>
    intro used
    by_cases hcl : p.refr_clique.cid ∈ used ∨ p.pred_clique.cid ∈ used
    · have hstep : findBestPairsGo (p :: rest) used = findBestPairsGo rest used := by
        simp only [findBestPairsGo, if_pos hcl]
      rw [hstep]
      obtain ⟨i1, i2⟩ := ih used
      refine ⟨?_, i2⟩
      intro q hq
      obtain ⟨a, b, c⟩ := i1 q hq
      exact ⟨List.mem_cons_of_mem _ a, b, c⟩
    · have hstep : findBestPairsGo (p :: rest) used =
          p :: findBestPairsGo rest (p.refr_clique.cid :: p.pred_clique.cid :: used) := by
        simp only [findBestPairsGo, if_neg hcl]
      rw [hstep]
      push_neg at hcl
      obtain ⟨i1, i2⟩ := ih (p.refr_clique.cid :: p.pred_clique.cid :: used)
      constructor
      · intro q hq
        rcases List.mem_cons.mp hq with rfl | hq'
        · exact ⟨List.mem_cons_self _ _, hcl.1, hcl.2⟩
        · obtain ⟨a, b, c⟩ := i1 q hq'
          refine ⟨List.mem_cons_of_mem _ a, ?_, ?_⟩
          · intro hx
            exact b (List.mem_cons_of_mem _ (List.mem_cons_of_mem _ hx))
          · intro hx
            exact c (List.mem_cons_of_mem _ (List.mem_cons_of_mem _ hx))
      · rw [List.pairwise_cons]
        refine ⟨?_, i2⟩
        intro q hq
        obtain ⟨_, b, c⟩ := i1 q hq
        have hb1 : q.refr_clique.cid ≠ p.refr_clique.cid := fun hx =>
          b (hx ▸ List.mem_cons_self _ _)
        have hb2 : q.refr_clique.cid ≠ p.pred_clique.cid := fun hx =>
          b (hx ▸ List.mem_cons_of_mem _ (List.mem_cons_self _ _))
        have hc1 : q.pred_clique.cid ≠ p.refr_clique.cid := fun hx =>
          c (hx ▸ List.mem_cons_self _ _)
        have hc2 : q.pred_clique.cid ≠ p.pred_clique.cid := fun hx =>
          c (hx ▸ List.mem_cons_of_mem _ (List.mem_cons_self _ _))
        exact ⟨hb1.symm, hc1.symm, hb2.symm, hc2.symm⟩

/-- Claim C5: across all clique pairs the pair selector reports for a locus, no
transcript clique appears in two different selected pairs, and — provided every
candidate pair was formed from actual (non-empty) cliques, as the spec defines
cliques — every selected pair needs comparison. -/
theorem find_best_pairs_claims_each_clique_once (pairs : List AgnCliquePair)
    (hne : ∀ p ∈ pairs, p.refr_clique.transcripts ≠ [] ∧ p.pred_clique.transcripts ≠ []) :
    List.Pairwise (fun p q =>
      p.refr_clique.cid ≠ q.refr_clique.cid ∧ p.refr_clique.cid ≠ q.pred_clique.cid ∧
      p.pred_clique.cid ≠ q.refr_clique.cid ∧ p.pred_clique.cid ≠ q.pred_clique.cid)
      (agn_pairwise_compare_locus_find_best_pairs pairs) ∧
    ∀ p ∈ agn_pairwise_compare_locus_find_best_pairs pairs,
      agn_clique_pair_needs_comparison p = true := by
  obtain ⟨i1, i2⟩ := findBestPairsGo_spec
    (pairs.insertionSort fun p q => pairSortsBefore p q = true) []
  refine ⟨i2, ?_⟩
  intro p hp
  obtain ⟨hmem, _, _⟩ := i1 p hp
  have hmem' : p ∈ pairs := (List.perm_insertionSort _ pairs).mem_iff.mp hmem
  obtain ⟨h1, h2⟩ := hne p hmem'
  rw [agn_clique_pair_needs_comparison]
  cases hr : p.refr_clique.transcripts
  · exact absurd hr h1
  · cases hpd : p.pred_clique.transcripts
    · exact absurd hpd h2
    · simp [hr, hpd]

/-- Witness for C5 at a two-candidate locus: both pairs involve non-empty
cliques, and the selector's output claims each clique at most once. -/
theorem find_best_pairs_claims_each_clique_once_witness :
    List.Pairwise (fun p q =>
      p.refr_clique.cid ≠ q.refr_clique.cid ∧ p.refr_clique.cid ≠ q.pred_clique.cid ∧
      p.pred_clique.cid ≠ q.refr_clique.cid ∧ p.pred_clique.cid ≠ q.pred_clique.cid)
      (agn_pairwise_compare_locus_find_best_pairs
        [⟨⟨1, [10]⟩, ⟨2, [20]⟩, AgnComparisonStats.mk ⟨1, 0, 0⟩ ⟨1, 0, 0⟩ ⟨0, 0, 0⟩ 9 10 0 false⟩,
         ⟨⟨1, [10]⟩, ⟨3, [30]⟩, AgnComparisonStats.mk ⟨1, 1, 0⟩ ⟨1, 1, 0⟩ ⟨0, 0, 0⟩ 5 10 0 false⟩]) ∧
    ∀ p ∈ agn_pairwise_compare_locus_find_best_pairs
        [⟨⟨1, [10]⟩, ⟨2, [20]⟩, AgnComparisonStats.mk ⟨1, 0, 0⟩ ⟨1, 0, 0⟩ ⟨0, 0, 0⟩ 9 10 0 false⟩,
         ⟨⟨1, [10]⟩, ⟨3, [30]⟩, AgnComparisonStats.mk ⟨1, 1, 0⟩ ⟨1, 1, 0⟩ ⟨0, 0, 0⟩ 5 10 0 false⟩],
      agn_clique_pair_needs_comparison p = true := by
  refine find_best_pairs_claims_each_clique_once _ ?_
  intro p hp
  rcases List.mem_cons.mp hp with rfl | hp'
  · exact ⟨by simp, by simp⟩
  · rcases List.mem_cons.mp hp' with rfl | hp''
    · exact ⟨by simp, by simp⟩
    · cases hp''

/-- The ParsEval options the per-locus report consumes (`PeOptions`). -/
structure PeOptions where
  outfmt : String
  complimit : Nat
  gff3 : Bool
  vectors : Bool
  trans_per_locus : Nat
deriving DecidableEq, Repr

/-- The shapes of output the per-locus text report can emit, in order. -/
inductive PeOutItem where
  | csv_output
  | html_output
  | locus_header (start stop : Nat)
  | gene_id_sections
  | splice_complexity_section
  | no_comparisons_note
  | exceeds_limit_note (npairs limit : Nat)
  | begin_comparison (p : AgnCliquePair)
  | unmatched_cliques_sections
deriving DecidableEq, Repr

/-- Embeds `pe_gene_locus_print_results` (PeReports.c) at the level of which
blocks are emitted: after dispatching csv/html formats it always prints the
locus header (sequence, start, end), the gene-id and splice-complexity
sections, and then either the "No comparisons were performed" note (clique
pairs `NULL`), or — when the clique-pair count exceeds a non-zero
`complimit` — the note naming that count and the limit, or else one comparison
block per selected pair followed by the unmatched-clique sections.
`locuspairs` is the value returned by
`agn_pairwise_compare_locus_get_clique_pairs` (not among the provided
sources). -/
def pe_gene_locus_print_results (locus : AgnPairwiseCompareLocus)
    (locuspairs : Option (List AgnCliquePair)) (options : PeOptions) : List PeOutItem :=
  if options.outfmt = "csv" then [PeOutItem.csv_output]
  else if options.outfmt = "html" then [PeOutItem.html_output]
  else
    [PeOutItem.locus_header (agn_pairwise_compare_locus_get_start locus)
        (agn_pairwise_compare_locus_get_end locus),
     PeOutItem.gene_id_sections, PeOutItem.splice_complexity_section] ++
    match locuspairs with
    | none => [PeOutItem.no_comparisons_note]
    | some ps =>
      if options.complimit ≠ 0 ∧ ps.length > options.complimit then
        [PeOutItem.exceeds_limit_note ps.length options.complimit]
      else
        (agn_pairwise_compare_locus_find_best_pairs ps).map PeOutItem.begin_comparison ++
          [PeOutItem.unmatched_cliques_sections]

/-- Claim C7: when a locus's clique-pair count exceeds a non-zero comparison
limit, the text report still lists the locus (header emitted) with an explicit
note naming the clique-pair count and the limit, and performs no comparisons
(no comparison block is emitted). -/
theorem locus_over_comparison_limit_still_reported
    (locus : AgnPairwiseCompareLocus) (ps : List AgnCliquePair) (options : PeOptions)
    (hfmt1 : options.outfmt ≠ "csv") (hfmt2 : options.outfmt ≠ "html")
    (hlim : options.complimit ≠ 0) (hover : ps.length > options.complimit) :
    pe_gene_locus_print_results locus (some ps) options =
      [PeOutItem.locus_header (agn_pairwise_compare_locus_get_start locus)
          (agn_pairwise_compare_locus_get_end locus),
       PeOutItem.gene_id_sections, PeOutItem.splice_complexity_section,
       PeOutItem.exceeds_limit_note ps.length options.complimit] ∧
    PeOutItem.locus_header (agn_pairwise_compare_locus_get_start locus)
      (agn_pairwise_compare_locus_get_end locus) ∈
      pe_gene_locus_print_results locus (some ps) options ∧
    PeOutItem.exceeds_limit_note ps.length options.complimit ∈
      pe_gene_locus_print_results locus (some ps) options ∧
    ∀ p : AgnCliquePair,
      PeOutItem.begin_comparison p ∉ pe_gene_locus_print_results locus (some ps) options := by
  have heq : pe_gene_locus_print_results locus (some ps) options =
      [PeOutItem.locus_header (agn_pairwise_compare_locus_get_start locus)
          (agn_pairwise_compare_locus_get_end locus),
       PeOutItem.gene_id_sections, PeOutItem.splice_complexity_section,
       PeOutItem.exceeds_limit_note ps.length options.complimit] := by
    rw [pe_gene_locus_print_results, if_neg hfmt1, if_neg hfmt2]
    simp only [if_pos (And.intro hlim hover)]
    rfl
  refine ⟨heq, ?_, ?_, ?_⟩
  · rw [heq]; simp
  · rw [heq]; simp
  · intro p
    rw [heq]
    simp

/-- Witness for C7: a locus with three candidate pairs against a limit of 2. -/
theorem locus_over_comparison_limit_still_reported_witness :
    PeOutItem.exceeds_limit_note 3 2 ∈
      pe_gene_locus_print_results agn_pairwise_compare_locus_new
        (some [⟨⟨1, [10]⟩, ⟨2, [20]⟩, AgnComparisonStats.mk ⟨1, 0, 0⟩ ⟨1, 0, 0⟩ ⟨0, 0, 0⟩ 9 10 0 false⟩,
               ⟨⟨1, [10]⟩, ⟨3, [30]⟩, AgnComparisonStats.mk ⟨1, 1, 0⟩ ⟨1, 1, 0⟩ ⟨0, 0, 0⟩ 5 10 0 false⟩,
               ⟨⟨4, [40]⟩, ⟨3, [30]⟩, AgnComparisonStats.mk ⟨1, 1, 0⟩ ⟨1, 1, 0⟩ ⟨0, 0, 0⟩ 5 10 0 false⟩])
        (PeOptions.mk "text" 2 false false 0) ∧
    ∀ p : AgnCliquePair,
      PeOutItem.begin_comparison p ∉
        pe_gene_locus_print_results agn_pairwise_compare_locus_new
          (some [⟨⟨1, [10]⟩, ⟨2, [20]⟩, AgnComparisonStats.mk ⟨1, 0, 0⟩ ⟨1, 0, 0⟩ ⟨0, 0, 0⟩ 9 10 0 false⟩,
                 ⟨⟨1, [10]⟩, ⟨3, [30]⟩, AgnComparisonStats.mk ⟨1, 1, 0⟩ ⟨1, 1, 0⟩ ⟨0, 0, 0⟩ 5 10 0 false⟩,
                 ⟨⟨4, [40]⟩, ⟨3, [30]⟩, AgnComparisonStats.mk ⟨1, 1, 0⟩ ⟨1, 1, 0⟩ ⟨0, 0, 0⟩ 5 10 0 false⟩])
          (PeOptions.mk "text" 2 false false 0) := by
  obtain ⟨_, h2, h3, h4⟩ := locus_over_comparison_limit_still_reported
    agn_pairwise_compare_locus_new
    [⟨⟨1, [10]⟩, ⟨2, [20]⟩, AgnComparisonStats.mk ⟨1, 0, 0⟩ ⟨1, 0, 0⟩ ⟨0, 0, 0⟩ 9 10 0 false⟩,
     ⟨⟨1, [10]⟩, ⟨3, [30]⟩, AgnComparisonStats.mk ⟨1, 1, 0⟩ ⟨1, 1, 0⟩ ⟨0, 0, 0⟩ 5 10 0 false⟩,
     ⟨⟨4, [40]⟩, ⟨3, [30]⟩, AgnComparisonStats.mk ⟨1, 1, 0⟩ ⟨1, 1, 0⟩ ⟨0, 0, 0⟩ 5 10 0 false⟩]
    (PeOptions.mk "text" 2 false false 0)
    (by decide) (by decide) (by decide) (by decide)
  exact ⟨h3, h4⟩

/-- A reported statistic string: either the explicit "undefined/not applicable"
sentinel ("--") or a numeric value. -/
inductive StatVal where
  | undef
  | val (q : ℚ)
deriving DecidableEq, Repr

/-- A reported C `double`: either the non-finite result of a division by zero
(NaN for 0/0, infinity otherwise) or a finite value. -/
inductive DoubleVal where
  | nonfinite
  | val (q : ℚ)
deriving DecidableEq, Repr

/-- A C floating-point quotient of two unsigned tallies: non-finite exactly
when the denominator is zero. -/
def cDiv (num den : Nat) : DoubleVal :=
  if den = 0 then DoubleVal.nonfinite else DoubleVal.val ((num : ℚ) / (den : ℚ))

/-- The resolved (printable) form of one structural-match record. -/
structure ResolvedStrucStats where
  sns : StatVal
  sps : StatVal
  f1s : StatVal
  eds : StatVal
deriving DecidableEq, Repr

/-- Modelled from the spec: `agn_resolve_structure_level_stats`
(AgnComparEval.c is not among the provided sources): sensitivity =
correct/(correct+missing), specificity = correct/(correct+wrong), F1 = their
harmonic mean, annotation edit distance = 1 − F1; each ratio is reported as the
explicit undefined sentinel when its denominator is zero, never as NaN or a
silent zero. -/
def agn_resolve_structure_level_stats (s : AgnCompStatsBinary) : ResolvedStrucStats :=
  let sns := if s.correct + s.missing = 0 then StatVal.undef
             else StatVal.val ((s.correct : ℚ) / ((s.correct : ℚ) + (s.missing : ℚ)))
  let sps := if s.correct + s.wrong = 0 then StatVal.undef
             else StatVal.val ((s.correct : ℚ) / ((s.correct : ℚ) + (s.wrong : ℚ)))
  let f1s := match sns, sps with
    | StatVal.val a, StatVal.val b =>
      if a + b = 0 then StatVal.undef else StatVal.val (2 * a * b / (a + b))
    | _, _ => StatVal.undef
  let eds := match f1s with
    | StatVal.val f => StatVal.val (1 - f)
    | StatVal.undef => StatVal.undef
  ⟨sns, sps, f1s, eds⟩

/-- The run-wide sums `pe_print_summary` recomputes its statistics from. -/
structure AgnSummaryStats where
  cds_struc_stats : AgnCompStatsBinary
  exon_struc_stats : AgnCompStatsBinary
  utr_struc_stats : AgnCompStatsBinary
  overall_matches : Nat
  overall_length : Nat
deriving DecidableEq, Repr

/-- The statistics block of the run-wide summary report. -/
structure PeSummaryReport where
  overall_identity : DoubleVal
  cds_struc : ResolvedStrucStats
  exon_struc : ResolvedStrucStats
  utr_struc : ResolvedStrucStats
deriving DecidableEq, Repr

/-- Embeds the statistics recomputation of `pe_print_summary` (PeReports.c
998–1007 and the printed values): the structure-level records are resolved via
the resolve functions, but `overall_identity` is recomputed as the plain
quotient `overall_matches / overall_length` with no zero-denominator guard
(line 1001) and printed as a number. -/
def pe_print_summary (sd : AgnSummaryStats) : PeSummaryReport :=
  { overall_identity := cDiv sd.overall_matches sd.overall_length
    cds_struc := agn_resolve_structure_level_stats sd.cds_struc_stats
    exon_struc := agn_resolve_structure_level_stats sd.exon_struc_stats
    utr_struc := agn_resolve_structure_level_stats sd.utr_struc_stats }

/-- The two shapes of the per-pair UTR structure section. -/
inductive UtrReportItem where
  | no_utrs_note
  | utr_stats_section
deriving DecidableEq, Repr

/-- Embeds the UTR structure section of `pe_gene_locus_print_results`
(PeReports.c 233–274): when `agn_clique_pair_has_utrs(pair)` is false — the
pair has no UTRs annotated on either side — an explicit
"No UTRs annotated for this locus." note is printed instead of any UTR
ratios.  `has_utrs` is the value of `agn_clique_pair_has_utrs(pair)`
(AgnCliquePair.c is not among the provided sources). -/
def pe_utr_structure_report (has_utrs : Bool) : List UtrReportItem :=
  if !has_utrs then [UtrReportItem.no_utrs_note] else [UtrReportItem.utr_stats_section]

/-- Counterexample to C8 as stated: in a run whose accumulated overall length
is zero (for instance, zero comparisons), the run-wide overall identity — a
comparison statistic with zero denominator — is recomputed by an unguarded
division and reported as the non-finite double (NaN), not as an explicit
undefined sentinel. -/
theorem summary_zero_length_reports_nan :
    (AgnSummaryStats.mk ⟨0, 0, 0⟩ ⟨0, 0, 0⟩ ⟨0, 0, 0⟩ 0 0).overall_length = 0 ∧
    (pe_print_summary (AgnSummaryStats.mk ⟨0, 0, 0⟩ ⟨0, 0, 0⟩ ⟨0, 0, 0⟩ 0 0)).overall_identity =
      DoubleVal.nonfinite := by
  constructor
  · rfl
  · rfl

/-- Claim C8 (amended): statistics that flow through the resolve functions and
the per-pair UTR report use an explicit undefined sentinel when their
denominator is zero — in particular a pair with no UTRs is reported as "No
UTRs annotated" instead of UTR ratios — but the run-wide overall identity,
recomputed in `pe_print_summary` by an unguarded division, is reported as a
non-finite double (NaN) when the accumulated length is zero. -/
theorem degenerate_ratio_reporting :
    (∀ b : Bool, b = false → pe_utr_structure_report b = [UtrReportItem.no_utrs_note]) ∧
    (∀ s : AgnCompStatsBinary, s.correct + s.missing = 0 →
      (agn_resolve_structure_level_stats s).sns = StatVal.undef) ∧
    (∀ s : AgnCompStatsBinary, s.correct + s.wrong = 0 →
      (agn_resolve_structure_level_stats s).sps = StatVal.undef) ∧
    (∀ num den : Nat, 0 < den → cDiv num den = DoubleVal.val ((num : ℚ) / (den : ℚ))) ∧
    (∀ sd : AgnSummaryStats, sd.overall_length = 0 →
      (pe_print_summary sd).overall_identity = DoubleVal.nonfinite) := by
  refine ⟨?_, ?_, ?_, ?_, ?_⟩
  · intro b hb
    rw [hb]
    rfl
  · intro s hs
    simp [agn_resolve_structure_level_stats, hs]
  · intro s hs
    simp [agn_resolve_structure_level_stats, hs]
  · intro num den hden
    rw [cDiv, if_neg (by omega)]
  · intro sd hsd
    simp [pe_print_summary, cDiv, hsd]

/-- Witness for C8's amended statement at concrete inputs. -/
theorem degenerate_ratio_reporting_witness :
    pe_utr_structure_report false = [UtrReportItem.no_utrs_note] ∧
    (agn_resolve_structure_level_stats ⟨0, 0, 5⟩).sns = StatVal.undef ∧
    (agn_resolve_structure_level_stats ⟨0, 5, 0⟩).sps = StatVal.undef ∧
    cDiv 3 4 = DoubleVal.val ((3 : ℚ) / (4 : ℚ)) ∧
    (pe_print_summary (AgnSummaryStats.mk ⟨1, 0, 0⟩ ⟨1, 0, 0⟩ ⟨0, 0, 0⟩ 0 0)).overall_identity =
      DoubleVal.nonfinite :=
  ⟨degenerate_ratio_reporting.1 false rfl,
   degenerate_ratio_reporting.2.1 ⟨0, 0, 5⟩ rfl,
   degenerate_ratio_reporting.2.2.1 ⟨0, 5, 0⟩ rfl,
   degenerate_ratio_reporting.2.2.2.1 3 4 (by omega),
   degenerate_ratio_reporting.2.2.2.2 (AgnSummaryStats.mk ⟨1, 0, 0⟩ ⟨1, 0, 0⟩ ⟨0, 0, 0⟩ 0 0) rfl⟩

end AEGeAn
